import Mathlib

/-!
Verification of the quatosTool frame-model and mixer-synthesis engine
(src/quatosTool.cc) against its natural-language specification.

The embedding models the double-precision arithmetic of the source with
exact arithmetic: `ℚ` for every computation a theorem evaluates, `ℝ` for
the trigonometric frame-geometry constants.  Divisions the source performs
unconditionally are modelled in two complementary ways: the plain `ℚ`
translation (where Lean supplies the junk value `x / 0 = 0`), and, for the
claims about non-finite results, a carrier `Option ℚ` in which `none`
stands for a non-finite double (NaN or ±Inf) and every arithmetic
operation propagates it, the way IEEE arithmetic propagates NaN.
-/

/-! ## Constants (the `#define` block of quatosTool.cc) -/

/-- Source constant `DEFAULT_MASS_ARM` (grams). -/
def DEFAULT_MASS_ARM : ℚ := 80

/-- Source constant `DEFAULT_MASS_MOTOR` (grams). -/
def DEFAULT_MASS_MOTOR : ℚ := 100

/-- Source constant `DEFAULT_MASS_ESC` (grams). -/
def DEFAULT_MASS_ESC : ℚ := 20

/-- Source constant `DEFAULT_DIST_MOTOR` (= 0.25). -/
def DEFAULT_DIST_MOTOR : ℚ := 1 / 4

/-- Source constant `DEFAULT_DIST_ESC` (= 0.1). -/
def DEFAULT_DIST_ESC : ℚ := 1 / 10

/-- The machine epsilon of `double`, `std::numeric_limits<double>::epsilon()`:
the default value of the `epsilon` argument of the source's `pseudoInverse`. -/
def machineEpsilon : ℚ := 1 / 2 ^ 52

/-- The frame topologies of the source's `configTypes` table. -/
inductive CraftType where
  | quadPlus
  | quadX
  | hexPlus
  | hexX
  | octoPlus
  | octoX
  | custom
deriving DecidableEq

/-- Motor count per standard topology, from the `switch` in `resetCraft`
(custom topologies take the count from the configuration; the value here is
unused for them). -/
def stdMotorCount : CraftType → ℕ
  | CraftType.quadPlus => 4
  | CraftType.quadX => 4
  | CraftType.hexPlus => 6
  | CraftType.hexX => 6
  | CraftType.octoPlus => 8
  | CraftType.octoX => 8
  | CraftType.custom => 0

/-! ## Frame geometry (the `switch (quatosData.craftType)` of `quatosToolCalc`)

The source fills `frameX`/`frameY` with `double` expressions built from
`sqrt` and single-precision `cosf`; the embedding uses the exact real
values.  `DEG_TO_RAD` is the source's `#define DEG_TO_RAD (M_PI / 180.0f)`. -/

noncomputable def DEG_TO_RAD : ℝ := Real.pi / 180

/-- quad_plus frame x coordinates (kept field-generic because they are
rational: the `ℚ` instantiation feeds the concrete pipeline evaluations). -/
def frameXQuadPlus (K : Type) [Field K] : Fin 4 → K := ![1, 0, -1, 0]

/-- quad_plus frame y coordinates. -/
def frameYQuadPlus (K : Type) [Field K] : Fin 4 → K := ![0, 1, 0, -1]

noncomputable def frameXQuadX : Fin 4 → ℝ :=
  ![Real.sqrt 2 / 2, Real.sqrt 2 / 2, -(Real.sqrt 2 / 2), -(Real.sqrt 2 / 2)]

noncomputable def frameYQuadX : Fin 4 → ℝ :=
  ![-(Real.sqrt 2 / 2), Real.sqrt 2 / 2, Real.sqrt 2 / 2, -(Real.sqrt 2 / 2)]

/-- hex_plus frame x coordinates.  The source assigns `frameX`/`frameY` twice
in this `case`; the second pair of comma-initialisations overwrites the first,
so only the second pair is modelled. -/
noncomputable def frameXHexPlus : Fin 6 → ℝ := ![1, 1 / 2, -(1 / 2), -1, -(1 / 2), 1 / 2]

noncomputable def frameYHexPlus : Fin 6 → ℝ :=
  ![0, Real.sqrt 3 / 2, Real.sqrt 3 / 2, 0, -(Real.sqrt 3 / 2), -(Real.sqrt 3 / 2)]

noncomputable def frameXHexX : Fin 6 → ℝ :=
  ![Real.sqrt 3 / 2, Real.sqrt 3 / 2, 0, -(Real.sqrt 3 / 2), -(Real.sqrt 3 / 2), 0]

noncomputable def frameYHexX : Fin 6 → ℝ := ![-(1 / 2), 1 / 2, 1, 1 / 2, -(1 / 2), -1]

noncomputable def frameXOctoPlus : Fin 8 → ℝ :=
  ![1, Real.cos (45 * DEG_TO_RAD), 0, Real.cos (135 * DEG_TO_RAD),
    -1, Real.cos (225 * DEG_TO_RAD), 0, Real.cos (315 * DEG_TO_RAD)]

noncomputable def frameYOctoPlus : Fin 8 → ℝ :=
  ![0, Real.cos (315 * DEG_TO_RAD), 1, Real.cos (45 * DEG_TO_RAD),
    0, Real.cos (135 * DEG_TO_RAD), -1, Real.cos (225 * DEG_TO_RAD)]

noncomputable def frameXOctoX : Fin 8 → ℝ :=
  ![Real.cos (337.5 * DEG_TO_RAD), Real.cos (22.5 * DEG_TO_RAD),
    Real.cos (67.5 * DEG_TO_RAD), Real.cos (112.5 * DEG_TO_RAD),
    Real.cos (157.5 * DEG_TO_RAD), Real.cos (202.5 * DEG_TO_RAD),
    Real.cos (247.5 * DEG_TO_RAD), Real.cos (292.5 * DEG_TO_RAD)]

noncomputable def frameYOctoX : Fin 8 → ℝ :=
  ![Real.cos (247.5 * DEG_TO_RAD), Real.cos (292.5 * DEG_TO_RAD),
    Real.cos (337.5 * DEG_TO_RAD), Real.cos (22.5 * DEG_TO_RAD),
    Real.cos (67.5 * DEG_TO_RAD), Real.cos (112.5 * DEG_TO_RAD),
    Real.cos (157.5 * DEG_TO_RAD), Real.cos (202.5 * DEG_TO_RAD)]

/-- Statement-side formalisation of the spec's description of a standard
frame geometry: point `i` sits on the unit circle at the starting phase plus
`i` steps of 360°/n, counted counter-clockwise. -/
noncomputable def evenlySpacedDeg (n : ℕ) (X Y : Fin n → ℝ) (phase : ℝ) : Prop :=
  ∀ i : Fin n,
    X i = Real.cos ((phase + (i : ℕ) * (360 / (n : ℝ))) * DEG_TO_RAD) ∧
    Y i = Real.sin ((phase + (i : ℕ) * (360 / (n : ℝ))) * DEG_TO_RAD)

/-! ## Matrix inverse and pseudo-inverse

The source inverts matrices with Eigen's `.inverse()` (exact inverse,
adjugate over determinant, no singularity check: a singular argument yields
non-finite entries, modelled here by `det⁻¹ = 0⁻¹ = 0`) and computes
Moore–Penrose pseudo-inverses in `pseudoInverse` by a thin Jacobi SVD with
the tolerance cut-off `epsilon * max(cols, rows) * max |σ|`.  The SVD
factorisation itself is an irrational-valued computation with no exact
closed form, so `pseudoInverseSVD` takes the factors `U`, `σ`, `V` as
arguments and applies exactly the source's formula to them; for a system of
full row rank whose singular values all clear the tolerance it agrees with
the closed form `Aᵀ(AAᵀ)⁻¹` (`pseudoInverseSVD_eq_pinvFRR` below), which is
the form the mixer pipeline is embedded with. -/

/-- Exact inverse of a square matrix, as Eigen's `.inverse()` computes it
(adjugate divided by determinant, no check): a singular argument gives
non-finite entries in the source and the junk value `0 • adjugate = 0` here. -/
def matInv {K : Type} [Field K] {m : ℕ} (A : Matrix (Fin m) (Fin m) K) :
    Matrix (Fin m) (Fin m) K :=
  (A.det)⁻¹ • A.adjugate

/-- Moore–Penrose pseudo-inverse of a full-row-rank matrix in closed form,
`Aᵀ (A Aᵀ)⁻¹`: the value the source's SVD-based `pseudoInverse` computes on
the full-row-rank systems of the mixer pipeline. -/
def pinvFRR {K : Type} [Field K] {r c : ℕ} (A : Matrix (Fin r) (Fin c) K) :
    Matrix (Fin c) (Fin r) K :=
  A.transpose * matInv (A * A.transpose)

/-- Maximum absolute value of the entries of a list (0 for the empty list);
models Eigen's `.array().abs().maxCoeff()`. -/
def listMaxAbs {K : Type} [LinearOrderedField K] (l : List K) : K :=
  l.foldr (fun a b => max |a| b) 0

/-- Maximum absolute value of the entries of a vector. -/
def vecMaxAbs {K : Type} [LinearOrderedField K] {n : ℕ} (v : Fin n → K) : K :=
  listMaxAbs (List.ofFn v)

/-- The source's `pseudoInverse` template applied to a thin SVD factorisation
`A = U · diag σ · Vᵀ` of an r×c matrix: each singular value is inverted
individually, but replaced by 0 when `|σᵢ| ≤ epsilon * max(cols, rows) * max |σ|`,
and the result is `V · diag σ⁺ · Uᵀ`. -/
def pseudoInverseSVD {K : Type} [LinearOrderedField K] {r c k : ℕ} (eps : K)
    (U : Matrix (Fin r) (Fin k) K) (sv : Fin k → K) (V : Matrix (Fin c) (Fin k) K) :
    Matrix (Fin c) (Fin r) K :=
  let tolerance := eps * ((max c r : ℕ) : K) * vecMaxAbs sv
  V * Matrix.diagonal (fun i => if tolerance < |sv i| then (sv i)⁻¹ else 0) * U.transpose

/-! ## The mixer stage of `quatosToolCalc` (source lines 718–858) -/

/-- The `Mt` assembly of `quatosToolCalc`:
`quatosData.Mt << quatosData.THROT, quatosData.PD * (quatosData.M*quatosData.PD).inverse();`
— column 0 is THROT, columns 1–3 are `PD · (M·PD)⁻¹`.  No invertibility
check is performed. -/
def mtCalc {K : Type} [Field K] {n : ℕ} (TH : Fin n → K)
    (PD : Matrix (Fin n) (Fin 3) K) (M : Matrix (Fin 3) (Fin n) K) :
    Matrix (Fin n) (Fin 4) K :=
  Matrix.of fun i => Fin.cons (TH i) fun j => (PD * matInv (M * PD)) i j

/-- The three attitude columns (columns 1–3) of an `Mt`-shaped matrix. -/
def attitudeCols {K : Type} [Field K] {n : ℕ} (Mt : Matrix (Fin n) (Fin 4) K) :
    Matrix (Fin n) (Fin 3) K :=
  Matrix.of fun i j => Mt i j.succ

/-- Maximum absolute value of column `k`, Eigen's `Mt.col(k).cwiseAbs().maxCoeff()`. -/
def colMaxAbs {K : Type} [LinearOrderedField K] {n : ℕ}
    (A : Matrix (Fin n) (Fin 4) K) (k : Fin 4) : K :=
  vecMaxAbs fun i => A i k

/-- The 4×n matrix the source first assembles into `PID`: row `k` is
`Mt.col(k).transpose() / Mt.col(k).cwiseAbs().maxCoeff()`. -/
def pidRows {K : Type} [LinearOrderedField K] {n : ℕ} (Mt : Matrix (Fin n) (Fin 4) K) :
    Matrix (Fin 4) (Fin n) K :=
  Matrix.of fun k i => Mt i k / colMaxAbs Mt k

/-- The final PID table: `quatosData.PID = quatosData.PID.transpose().eval() * 100.0`. -/
def pidCalc {K : Type} [LinearOrderedField K] {n : ℕ} (Mt : Matrix (Fin n) (Fin 4) K) :
    Matrix (Fin n) (Fin 4) K :=
  (100 : K) • (pidRows Mt).transpose

/-- Result bundle of the mixer stage of `quatosToolCalc`. -/
structure MixerOut (n : ℕ) (K : Type) where
  motorX : Fin n → K
  motorY : Fin n → K
  propDir : Fin n → K
  ROLL : Fin n → K
  PITCH : Fin n → K
  YAW : Fin n → K
  THROT : Fin n → K
  PD : Matrix (Fin n) (Fin 3) K
  M : Matrix (Fin 3) (Fin n) K
  Mt : Matrix (Fin n) (Fin 4) K
  PID : Matrix (Fin n) (Fin 4) K

/-- The mixer stage of `quatosToolCalc`, translated line by line: motor
coordinates are the frame coordinates, scaled by `distMot` for non-custom
topologies, then offset by the x/y components of the centre of gravity (the
z component is never read); the declared rotation signs are multiplied by
−1 (`quatosData.propDir *= -1.0`); the four axis systems are assembled and
solved by pseudo-inverse times target; `PD`, `M`, `Mt` and `PID` follow. -/
def quatosToolCalcMixer {K : Type} [LinearOrderedField K] (n : ℕ) (ct : CraftType)
    (frameX frameY propDirDecl : Fin n → K) (distMot cgX cgY : K) : MixerOut n K :=
  let motorX : Fin n → K :=
    fun i => (if ct ≠ CraftType.custom then frameX i * distMot else frameX i) - cgX
  let motorY : Fin n → K :=
    fun i => (if ct ≠ CraftType.custom then frameY i * distMot else frameY i) - cgY
  let p : Fin n → K := fun i => propDirDecl i * (-1)
  let ones : Fin n → K := fun _ => 1
  let Aroll : Matrix (Fin 3) (Fin n) K := Matrix.of ![motorX, ones, fun i => -motorY i]
  let ROLL : Fin n → K := (pinvFRR Aroll).mulVec ![0, 0, 1]
  let Apitch : Matrix (Fin 3) (Fin n) K := Matrix.of ![fun i => -motorY i, ones, motorX]
  let PITCH : Fin n → K := (pinvFRR Apitch).mulVec ![0, 0, 1]
  let Ayaw : Matrix (Fin 3) (Fin n) K := Matrix.of ![motorX, motorY, p]
  let YAW : Fin n → K := (pinvFRR Ayaw).mulVec ![0, 0, 1]
  let Athrot : Matrix (Fin 4) (Fin n) K := Matrix.of ![motorX, motorY, p, ones]
  let THROT : Fin n → K := (pinvFRR Athrot).mulVec ![0, 0, 0, (n : K)]
  let PD : Matrix (Fin n) (Fin 3) K := Matrix.of fun i => ![ROLL i, PITCH i, YAW i]
  let M : Matrix (Fin 3) (Fin n) K := Matrix.of ![fun i => -motorY i, motorX, p]
  let Mt : Matrix (Fin n) (Fin 4) K := mtCalc THROT PD M
  ⟨motorX, motorY, p, ROLL, PITCH, YAW, THROT, PD, M, Mt, pidCalc Mt⟩

/-! ## Mass objects and the inertia accumulation (`quatosToolJCalc`,
`quatosToolShapeCalc` and the J loop of `quatosToolObjCalc`) -/

/-- The skew-symmetric cross-product matrix `S` of `quatosToolJCalc`. -/
def skewS (x y z : ℚ) : Matrix (Fin 3) (Fin 3) ℚ :=
  Matrix.of ![![0, -z, y], ![z, 0, -x], ![-y, x, 0]]

/-- Source `quatosToolJCalc`: accumulate the point-mass contribution
`J - mass·(S·S)` for a point at `(x, y, z)` relative to the CG. -/
def quatosToolJCalc (J : Matrix (Fin 3) (Fin 3) ℚ) (mass x y z : ℚ) :
    Matrix (Fin 3) (Fin 3) ℚ :=
  J - mass • (skewS x y z * skewS x y z)

/-- One entry of the source's `object_t` array, after the gram→kilogram
conversion the accumulation loop applies in place. -/
structure ObjRec where
  mass : ℚ
  x : ℚ
  y : ℚ
  z : ℚ
  dimX : ℚ
  dimY : ℚ
  dimZ : ℚ

/-- Millimetre cell count of one dimension: the C cast `int x = obj->dimX * 1000`
(truncation; identical to the floor for the non-negative extents, and like the
C loop a non-positive value yields zero iterations). -/
def mmCells (d : ℚ) : ℕ := (⌊d * 1000⌋).toNat

/-- The sign the source gives a sub-cell offset: `(v < 0.0) ? -1.0 : +1.0`. -/
def shapeSign (v : ℚ) : ℚ := if v < 0 then -1 else 1

/-- Source `quatosToolShapeCalc`: decompose a cuboid into millimetre cells,
each carrying `mass / (x·y·z)`, and fold `quatosToolJCalc` over every cell. -/
def quatosToolShapeCalc (cg : Fin 3 → ℚ) (J : Matrix (Fin 3) (Fin 3) ℚ) (o : ObjRec) :
    Matrix (Fin 3) (Fin 3) ℚ :=
  let x := mmCells o.dimX
  let y := mmCells o.dimY
  let z := mmCells o.dimZ
  let mass := o.mass / ((x * y * z : ℕ) : ℚ)
  (List.range x).foldl (fun J1 (i : ℕ) =>
    (List.range y).foldl (fun J2 (j : ℕ) =>
      (List.range z).foldl (fun J3 (k : ℕ) =>
        quatosToolJCalc J3 mass
          (o.x - cg 0 - (o.dimX / 2 + (i : ℚ) / 1000) * shapeSign o.x)
          (o.y - cg 1 - (o.dimY / 2 + (j : ℚ) / 1000) * shapeSign o.y)
          (o.z - cg 2 - (o.dimZ / 2 + (k : ℚ) / 1000) * shapeSign o.z)) J2) J1) J

/-- One step of the J loop of `quatosToolObjCalc`: an object is treated as a
dimensioned shape exactly when all three extents are non-zero
(`objs[i].dimX != 0.0 && objs[i].dimY != 0.0 && objs[i].dimZ != 0.0`),
otherwise as a point mass at its CG-relative position. -/
def objJStep (cg : Fin 3 → ℚ) (J : Matrix (Fin 3) (Fin 3) ℚ) (o : ObjRec) :
    Matrix (Fin 3) (Fin 3) ℚ :=
  if o.dimX ≠ 0 ∧ o.dimY ≠ 0 ∧ o.dimZ ≠ 0 then quatosToolShapeCalc cg J o
  else quatosToolJCalc J o.mass (o.x - cg 0) (o.y - cg 1) (o.z - cg 2)

/-! ## The non-finiteness-tracking carrier

`NQ = Option ℚ` models a double that is either finite (`some q`) or
non-finite (`none`, a NaN or ±Inf).  The operations propagate `none` the
way IEEE arithmetic propagates NaN, and a division by zero produces `none`.
`quatosToolObjCalc` is translated over this carrier to express the claims
about NaN production and propagation. -/

/-- A double that is finite (`some q`) or non-finite (`none`). -/
abbrev NQ : Type := Option ℚ

/-- Addition on `NQ`; `none` propagates. -/
def nadd : NQ → NQ → NQ
  | some a, some b => some (a + b)
  | _, _ => none

/-- Subtraction on `NQ`; `none` propagates. -/
def nsub : NQ → NQ → NQ
  | some a, some b => some (a - b)
  | _, _ => none

/-- Multiplication on `NQ`; `none` propagates (in IEEE arithmetic
`0 * NaN = NaN` too). -/
def nmul : NQ → NQ → NQ
  | some a, some b => some (a * b)
  | _, _ => none

/-- Division on `NQ`: a zero divisor yields a non-finite result
(`0/0 = NaN`, `x/0 = ±Inf`), and `none` propagates. -/
def ndiv : NQ → NQ → NQ
  | some a, some b => if b = 0 then none else some (a / b)
  | _, _ => none

/-- The comparison `(v < 0.0) ? -1.0 : +1.0` on the carrier: an IEEE
comparison with NaN is false, so a non-finite value gets sign +1. -/
def shapeSignN : NQ → ℚ
  | some v => if v < 0 then -1 else 1
  | none => 1

/-- The parsed frame description `quatosToolObjCalc` reads from the global
`quatosData`: topology, per-motor frame coordinates and rotation signs, the
class masses and distances, and the declared cube payload objects. -/
structure FrameCfg (n : ℕ) where
  craftType : CraftType
  frameX : Fin n → ℚ
  frameY : Fin n → ℚ
  propDir : Fin n → ℚ
  massMot : ℚ
  massEsc : ℚ
  massArm : ℚ
  distMot : ℚ
  distEsc : ℚ
  cubes : List ObjRec

/-- One object of `quatosToolObjCalc`'s list over the carrier: the mass and
extents are always finite parsed values, the position may be non-finite. -/
structure ObjN where
  mass : ℚ
  x : NQ
  y : NQ
  z : NQ
  dimX : ℚ
  dimY : ℚ
  dimZ : ℚ

/-- The motor object of motor `i`: frame position, scaled by `distMot` for
non-custom topologies. -/
def motorObjN {n : ℕ} (c : FrameCfg n) (i : Fin n) : ObjN :=
  { mass := c.massMot
    x := some (if c.craftType ≠ CraftType.custom then c.frameX i * c.distMot else c.frameX i)
    y := some (if c.craftType ≠ CraftType.custom then c.frameY i * c.distMot else c.frameY i)
    z := some 0, dimX := 0, dimY := 0, dimZ := 0 }

/-- The ESC object of motor `i`.  For a custom topology the source divides
the raw frame coordinates by their Euclidean norm
(`norm = sqrt(frameX*frameX + frameY*frameY)`) before scaling by `distEsc`,
with no guard against a zero norm.  The square root is a real-valued
function with no exact rational counterpart, so it enters as the parameter
`rt`, about which the theorems assume only what the claims need
(`rt (some 0) = some 0`, true of the real square root). -/
def escObjN {n : ℕ} (c : FrameCfg n) (rt : NQ → NQ) (i : Fin n) : ObjN :=
  if c.craftType ≠ CraftType.custom then
    { mass := c.massEsc
      x := some (c.frameX i * c.distEsc)
      y := some (c.frameY i * c.distEsc)
      z := some 0, dimX := 0, dimY := 0, dimZ := 0 }
  else
    let norm := rt (some (c.frameX i * c.frameX i + c.frameY i * c.frameY i))
    { mass := c.massEsc
      x := nmul (ndiv (some (c.frameX i)) norm) (some c.distEsc)
      y := nmul (ndiv (some (c.frameY i)) norm) (some c.distEsc)
      z := some 0, dimX := 0, dimY := 0, dimZ := 0 }

/-- The arm object of motor `i`: half the frame position, scaled by
`distMot` for non-custom topologies. -/
def armObjN {n : ℕ} (c : FrameCfg n) (i : Fin n) : ObjN :=
  { mass := c.massArm
    x := some (if c.craftType ≠ CraftType.custom then c.frameX i / 2 * c.distMot
               else c.frameX i / 2)
    y := some (if c.craftType ≠ CraftType.custom then c.frameY i / 2 * c.distMot
               else c.frameY i / 2)
    z := some 0, dimX := 0, dimY := 0, dimZ := 0 }

/-- The object list `quatosToolObjCalc` builds: motor, ESC and arm objects
per motor in declaration order, then the declared cube payloads. -/
def buildObjsN {n : ℕ} (c : FrameCfg n) (rt : NQ → NQ) : List ObjN :=
  ((List.finRange n).flatMap fun i => [motorObjN c i, escObjN c rt i, armObjN c i]) ++
    c.cubes.map fun o => ⟨o.mass, some o.x, some o.y, some o.z, o.dimX, o.dimY, o.dimZ⟩

/-- The gram→kilogram conversion `objs[i].mass /= 1000` the accumulation
loop applies to every object before summing. -/
def kgObjsN {n : ℕ} (c : FrameCfg n) (rt : NQ → NQ) : List ObjN :=
  (buildObjsN c rt).map fun o =>
    { o with mass := o.mass / 1000 }

/-- Position component `j` of an object. -/
def posN (o : ObjN) : Fin 3 → NQ := ![o.x, o.y, o.z]

/-- Total mass: the sum of the converted masses (always finite — masses are
parsed values). -/
def totalMassN {n : ℕ} (c : FrameCfg n) (rt : NQ → NQ) : ℚ :=
  ((kgObjsN c rt).map fun o => o.mass).sum

/-- The mass-weighted position sum accumulated into `offsetCG`. -/
def cgSumN {n : ℕ} (c : FrameCfg n) (rt : NQ → NQ) (j : Fin 3) : NQ :=
  (kgObjsN c rt).foldl (fun s o => nadd s (nmul (some o.mass) (posN o j))) (some 0)

/-- The centre of gravity: `quatosData.offsetCG /= quatosData.totalMass`,
performed unconditionally — a zero total mass divides by zero. -/
def cgN {n : ℕ} (c : FrameCfg n) (rt : NQ → NQ) (j : Fin 3) : NQ :=
  ndiv (cgSumN c rt j) (some (totalMassN c rt))

/-- The `(ROLL, ROLL)` entry of one point call of `quatosToolJCalc`:
`J(0,0)` grows by `mass * (y² + z²)` for a point at CG-relative `(x, y, z)`. -/
def j00TermN (mass : ℚ) (y z : NQ) : NQ :=
  nmul (some mass) (nadd (nmul y y) (nmul z z))

/-- The `(ROLL, ROLL)` entry of `quatosToolShapeCalc` over the carrier:
the same millimetre-cell fold, accumulating `j00TermN` per cell. -/
def shapeJ00N (cg : Fin 3 → NQ) (acc : NQ) (o : ObjN) : NQ :=
  let x := mmCells o.dimX
  let y := mmCells o.dimY
  let z := mmCells o.dimZ
  let mass := o.mass / ((x * y * z : ℕ) : ℚ)
  (List.range x).foldl (fun a1 (_ : ℕ) =>
    (List.range y).foldl (fun a2 (j : ℕ) =>
      (List.range z).foldl (fun a3 (k : ℕ) =>
        nadd a3 (j00TermN mass
          (nsub (nsub o.y (cg 1)) (some ((o.dimY / 2 + (j : ℚ) / 1000) * shapeSignN o.y)))
          (nsub (nsub o.z (cg 2)) (some ((o.dimZ / 2 + (k : ℚ) / 1000) * shapeSignN o.z))))) a2) a1) acc

/-- The `(ROLL, ROLL)` entry of the J accumulation of `quatosToolObjCalc`
over the carrier, with the source's point/shape branch per object. -/
def j00N {n : ℕ} (c : FrameCfg n) (rt : NQ → NQ) : NQ :=
  (kgObjsN c rt).foldl (fun acc o =>
    if o.dimX ≠ 0 ∧ o.dimY ≠ 0 ∧ o.dimZ ≠ 0 then shapeJ00N (cgN c rt) acc o
    else nadd acc (j00TermN o.mass (nsub o.y (cgN c rt 1)) (nsub o.z (cgN c rt 2)))) (some 0)

/-- The CG-adjusted motor x coordinate the mixer stage computes from this
configuration (`quatosData.motorX -= ones * offsetCG(0)`), over the carrier:
the value every one of the four mixer systems reads. -/
def mixerMotorXN {n : ℕ} (c : FrameCfg n) (rt : NQ → NQ) (i : Fin n) : NQ :=
  nsub (some (if c.craftType ≠ CraftType.custom then c.frameX i * c.distMot else c.frameX i))
    (cgN c rt 0)

/-! ## The port-order encoding of `main` (source lines 1028–1048) -/

/-- First port-order word: ports of motors 0–5 in 4-bit fields at bits
8+4i, OR-ed over the `configId` in bits 0–7. -/
def encodePortOrder1 (configId : ℕ) (ports : List ℕ) : ℕ :=
  ((List.range (min 6 ports.length)).foldl
    (fun acc i => acc ||| ports.getD i 0 <<< (8 + 4 * i)) 0) ||| configId

/-- The 32 bits that reach the output: `portOrder` is an `unsigned long`,
and `*(float *) &portOrder` reads its low 4 bytes. -/
def word1Bits (configId : ℕ) (ports : List ℕ) : ℕ :=
  encodePortOrder1 configId ports % 2 ^ 32

/-- Second port-order word (emitted only when more than 6 motors exist):
ports of motors 6–13 in 4-bit fields from bit 0. -/
def encodePortOrder2 (ports : List ℕ) : ℕ :=
  (List.range (min 8 (ports.length - 6))).foldl
    (fun acc i => acc ||| ports.getD (i + 6) 0 <<< (4 * i)) 0

/-- The 32 bits of the second word that reach the output. -/
def word2Bits (ports : List ℕ) : ℕ :=
  encodePortOrder2 ports % 2 ^ 32

/-- Modelled from the spec: the decode side of the port-order encoding
(the consumer of the emitted constant, which is not part of this
repository) recovers the `configId` from bits 0–7 of the first word. -/
def decodeConfigId (w : ℕ) : ℕ := w % 2 ^ 8

/-- Modelled from the spec: the decode side recovers the port of motor
index `i` (0 ≤ i ≤ 5) from bits (8+4i)–(11+4i) of the first word. -/
def decodePortLow (w : ℕ) (i : ℕ) : ℕ := (w >>> (8 + 4 * i)) % 2 ^ 4

/-- Modelled from the spec: the decode side recovers the port of motor
index `i` (6 ≤ i ≤ 13) from bits 4(i−6)–4(i−6)+3 of the second word. -/
def decodePortHigh (w : ℕ) (i : ℕ) : ℕ := (w >>> (4 * (i - 6))) % 2 ^ 4

/-- The square-root model used by concrete witnesses (only its value at 0,
which is all the theorems assume, matters). -/
def rtZero : NQ → NQ := fun _ => some 0

/-- A quad_plus configuration whose motor, ESC and arm class masses are all
declared zero (the parser accepts explicit zero masses), summing to zero
total mass. -/
def cfgZeroMass : FrameCfg 4 where
  craftType := CraftType.quadPlus
  frameX := frameXQuadPlus ℚ
  frameY := frameYQuadPlus ℚ
  propDir := ![1, -1, 1, -1]
  massMot := 0
  massEsc := 0
  massArm := 0
  distMot := DEFAULT_DIST_MOTOR
  distEsc := DEFAULT_DIST_ESC
  cubes := []

/-- A custom topology whose motor 0 has raw placement exactly (0, 0)
(default masses and distances, no payloads). -/
def cfgCustomZero : FrameCfg 2 where
  craftType := CraftType.custom
  frameX := ![0, 1]
  frameY := ![0, 0]
  propDir := ![1, -1]
  massMot := DEFAULT_MASS_MOTOR
  massEsc := DEFAULT_MASS_ESC
  massArm := DEFAULT_MASS_ARM
  distMot := DEFAULT_DIST_MOTOR
  distEsc := DEFAULT_DIST_ESC
  cubes := []

/-- Concrete singular mixer instance for the C2 analysis: the torque matrix
of four collinear motors (motor y coordinates identically zero after CG
centring) with alternating rotations. -/
def cexM : Matrix (Fin 3) (Fin 4) ℚ :=
  Matrix.of ![![0, 0, 0, 0], ![-3/2, -1/2, 1/2, 3/2], ![-1, 1, -1, 1]]

/-- An attitude matrix whose ROLL column is zero, as the pseudo-inverse
produces for that collinear geometry (the ROLL system is unsatisfiable and
its least-squares minimum-norm solution is the zero vector). -/
def cexPD : Matrix (Fin 4) (Fin 3) ℚ :=
  Matrix.of ![![0, 1, 0], ![0, 0, 1], ![0, 0, 0], ![0, 0, 0]]

/-- A throttle column for the C2 instance. -/
def cexTH : Fin 4 → ℚ := ![1, 1, 1, 1]

/-! ## Inverse lemmas -/

theorem matInv_mul_cancel {K : Type} [Field K] {m : ℕ} (A : Matrix (Fin m) (Fin m) K)
    (h : A.det ≠ 0) : A * matInv A = 1 := by
  rw [matInv, Matrix.mul_smul, Matrix.mul_adjugate, smul_smul, inv_mul_cancel₀ h, one_smul]

theorem matInv_mul_cancel_left {K : Type} [Field K] {m : ℕ} (A : Matrix (Fin m) (Fin m) K)
    (h : A.det ≠ 0) : matInv A * A = 1 := by
  rw [matInv, Matrix.smul_mul, Matrix.adjugate_mul, smul_smul, inv_mul_cancel₀ h, one_smul]

theorem matInv_eq_of_mul_eq_one {K : Type} [Field K] {m : ℕ}
    {A B : Matrix (Fin m) (Fin m) K} (h1 : A * B = 1) : matInv A = B := by
  have hdet : A.det ≠ 0 := by
    have hmul : A.det * B.det = 1 := by rw [← Matrix.det_mul, h1, Matrix.det_one]
    exact left_ne_zero_of_mul_eq_one hmul
  calc matInv A = matInv A * (A * B) := by rw [h1, mul_one]
    _ = matInv A * A * B := by rw [mul_assoc]
    _ = B := by rw [matInv_mul_cancel_left A hdet, one_mul]

theorem matInv_of_det_eq_zero {K : Type} [Field K] {m : ℕ} {A : Matrix (Fin m) (Fin m) K}
    (h : A.det = 0) : matInv A = 0 := by
  rw [matInv, h, inv_zero, zero_smul]

/-- The attitude block of `mtCalc` is `PD · (M·PD)⁻¹`, and `M` times it is
the identity whenever `M·PD` is invertible; the THROT column is untouched. -/
theorem mtCalc_att_eq {K : Type} [Field K] {n : ℕ} (TH : Fin n → K)
    (PD : Matrix (Fin n) (Fin 3) K) (M : Matrix (Fin 3) (Fin n) K) :
    attitudeCols (mtCalc TH PD M) = PD * matInv (M * PD) := by
  ext i j
  simp [attitudeCols, mtCalc, Fin.cons_succ]

theorem mtCalc_col_zero {K : Type} [Field K] {n : ℕ} (TH : Fin n → K)
    (PD : Matrix (Fin n) (Fin 3) K) (M : Matrix (Fin 3) (Fin n) K) (i : Fin n) :
    mtCalc TH PD M i 0 = TH i := by
  simp [mtCalc]

/-- C1.  With the synthesized attitude matrix `PD`, the torque-generation
matrix `M` and the attitude columns of `Mt` computed as `PD·(M·PD)⁻¹`, the
product of `M` with the attitude columns of `Mt` is exactly the 3×3
identity whenever `M·PD` is invertible — for any frame geometry, so in
particular for every standard topology — while the THROTTLE column of `Mt`
carries `THROT` through unchanged. -/
theorem c1_decoupling {K : Type} [LinearOrderedField K] (n : ℕ) (ct : CraftType)
    (frameX frameY propDirDecl : Fin n → K) (distMot cgX cgY : K)
    (h : ((quatosToolCalcMixer n ct frameX frameY propDirDecl distMot cgX cgY).M *
          (quatosToolCalcMixer n ct frameX frameY propDirDecl distMot cgX cgY).PD).det ≠ 0) :
    (quatosToolCalcMixer n ct frameX frameY propDirDecl distMot cgX cgY).M *
      attitudeCols (quatosToolCalcMixer n ct frameX frameY propDirDecl distMot cgX cgY).Mt
      = 1 ∧
    ∀ i, (quatosToolCalcMixer n ct frameX frameY propDirDecl distMot cgX cgY).Mt i 0 =
      (quatosToolCalcMixer n ct frameX frameY propDirDecl distMot cgX cgY).THROT i := by
  constructor
  · rw [show (quatosToolCalcMixer n ct frameX frameY propDirDecl distMot cgX cgY).Mt =
        mtCalc (quatosToolCalcMixer n ct frameX frameY propDirDecl distMot cgX cgY).THROT
          (quatosToolCalcMixer n ct frameX frameY propDirDecl distMot cgX cgY).PD
          (quatosToolCalcMixer n ct frameX frameY propDirDecl distMot cgX cgY).M from rfl,
      mtCalc_att_eq, ← Matrix.mul_assoc]
    exact matInv_mul_cancel _ h
  · intro i
    exact mtCalc_col_zero _ _ _ i

/-- Witness for C1: the full quad_plus pipeline over `ℚ` (default
`distMot = 0.25`, the symmetric default-mass centre of gravity `(0, 0)`,
alternating declared rotations) satisfies the invertibility hypothesis, so
`M · (attitude columns of Mt) = I₃` and the THROTTLE column is unchanged. -/
theorem c1_decoupling_witness :
    (quatosToolCalcMixer 4 CraftType.quadPlus (frameXQuadPlus ℚ) (frameYQuadPlus ℚ)
        ![1, -1, 1, -1] (1 / 4) 0 0).M *
      attitudeCols (quatosToolCalcMixer 4 CraftType.quadPlus (frameXQuadPlus ℚ)
        (frameYQuadPlus ℚ) ![1, -1, 1, -1] (1 / 4) 0 0).Mt = 1 ∧
    ∀ i, (quatosToolCalcMixer 4 CraftType.quadPlus (frameXQuadPlus ℚ) (frameYQuadPlus ℚ)
        ![1, -1, 1, -1] (1 / 4) 0 0).Mt i 0 =
      (quatosToolCalcMixer 4 CraftType.quadPlus (frameXQuadPlus ℚ) (frameYQuadPlus ℚ)
        ![1, -1, 1, -1] (1 / 4) 0 0).THROT i :=
  c1_decoupling 4 CraftType.quadPlus (frameXQuadPlus ℚ) (frameYQuadPlus ℚ)
    ![1, -1, 1, -1] (1 / 4) 0 0 (by
      norm_num +decide [quatosToolCalcMixer, pinvFRR, matInv, frameXQuadPlus, frameYQuadPlus,
        Matrix.mulVec, Matrix.vecMul, Matrix.dotProduct, Matrix.mul_apply, Fin.sum_univ_four,
        Fin.sum_univ_three, Matrix.det_fin_three, Matrix.adjugate_fin_three,
        Matrix.smul_apply, Matrix.transpose, Matrix.vecHead, Matrix.vecTail, Matrix.of_apply,
        Matrix.cons_val_zero, Matrix.cons_val_one, Matrix.head_cons])

/-- Counterexample for C2.  A singular `M·PD` (as arises from degenerate
geometry, e.g. collinear motors, whose ROLL system is unsolvable and yields
a zero ROLL column) is not rejected: the `Mt` assembly still produces a
full result table — Eigen's unchecked inverse yields non-finite entries
there, the junk inverse `0` here — and the decoupling property fails,
instead of the engine failing fast and returning no result. -/
theorem c2_counterexample :
    (cexM * cexPD).det = 0 ∧
    mtCalc cexTH cexPD cexM =
      Matrix.of ![![1, 0, 0, 0], ![1, 0, 0, 0], ![1, 0, 0, 0], ![1, 0, 0, 0]] ∧
    cexM * attitudeCols (mtCalc cexTH cexPD cexM) ≠ 1 := by
  have hdet : (cexM * cexPD).det = 0 := by
    norm_num [cexM, cexPD, Matrix.det_fin_three, Matrix.mul_apply, Fin.sum_univ_four,
      Matrix.vecHead, Matrix.vecTail]
  have hblock : cexPD * matInv (cexM * cexPD) = 0 := by
    rw [matInv_of_det_eq_zero hdet, Matrix.mul_zero]
  refine ⟨hdet, ?_, ?_⟩
  · ext i j
    refine Fin.cases ?_ (fun j3 => ?_) j
    · show cexTH i = _
      fin_cases i <;> norm_num [cexTH, Matrix.vecHead, Matrix.vecTail]
    · show (cexPD * matInv (cexM * cexPD)) i j3 = _
      rw [hblock]
      fin_cases i <;> fin_cases j3 <;> norm_num [Matrix.vecHead, Matrix.vecTail]
  · rw [mtCalc_att_eq, hblock, Matrix.mul_zero]
    intro h
    have h00 := congrFun (congrFun h 0) 0
    simp [Matrix.one_apply_eq] at h00

/-- C2 (amended).  The engine performs no invertibility check on `M·PD`:
`Mt` is assembled unconditionally from `(M·PD).inverse()`.  When
`det (M·PD) = 0` no error is raised and a full table is still returned —
its three attitude columns are the junk value 0 of the exact model (the
non-finite values of the IEEE code), and the THROTTLE column is still
carried through. -/
theorem c2_no_fail_fast {K : Type} [Field K] {n : ℕ} (TH : Fin n → K)
    (PD : Matrix (Fin n) (Fin 3) K) (M : Matrix (Fin 3) (Fin n) K)
    (h : (M * PD).det = 0) :
    (∀ (i : Fin n) (j : Fin 3), mtCalc TH PD M i j.succ = 0) ∧
      ∀ i, mtCalc TH PD M i 0 = TH i := by
  have hblock : PD * matInv (M * PD) = 0 := by
    rw [matInv_of_det_eq_zero h, Matrix.mul_zero]
  constructor
  · intro i j
    show (PD * matInv (M * PD)) i j = 0
    rw [hblock]
    simp
  · intro i
    exact mtCalc_col_zero _ _ _ i

/-- Witness for C2's amended statement at the concrete singular system. -/
theorem c2_no_fail_fast_witness :
    mtCalc cexTH cexPD cexM 0 (Fin.succ 0) = 0 ∧ mtCalc cexTH cexPD cexM 0 0 = cexTH 0 := by
  have h := c2_no_fail_fast cexTH cexPD cexM
    (by norm_num [cexM, cexPD, Matrix.det_fin_three, Matrix.mul_apply, Fin.sum_univ_four,
      Matrix.vecHead, Matrix.vecTail])
  exact ⟨h.1 0 0, h.2 0⟩

/-! ## Maximum-absolute-value lemmas -/

theorem listMaxAbs_cons {K : Type} [LinearOrderedField K] (a : K) (t : List K) :
    listMaxAbs (a :: t) = max |a| (listMaxAbs t) := rfl

theorem listMaxAbs_nonneg {K : Type} [LinearOrderedField K] (l : List K) :
    0 ≤ listMaxAbs l := by
  induction l with
  | nil => simp [listMaxAbs]
  | cons a t ih => rw [listMaxAbs_cons]; exact le_trans ih (le_max_right _ _)

theorem le_listMaxAbs {K : Type} [LinearOrderedField K] {l : List K} {a : K} (h : a ∈ l) :
    |a| ≤ listMaxAbs l := by
  induction l with
  | nil => simp at h
  | cons b t ih =>
    rw [listMaxAbs_cons]
    rcases List.mem_cons.mp h with rfl | ht
    · exact le_max_left _ _
    · exact le_trans (ih ht) (le_max_right _ _)

theorem listMaxAbs_map_mul {K : Type} [LinearOrderedField K] (c : K) (l : List K) :
    listMaxAbs (l.map fun a => c * a) = |c| * listMaxAbs l := by
  induction l with
  | nil => simp [listMaxAbs]
  | cons a t ih =>
    rw [List.map_cons, listMaxAbs_cons, listMaxAbs_cons, ih, abs_mul,
      mul_max_of_nonneg _ _ (abs_nonneg c)]

theorem vecMaxAbs_nonneg {K : Type} [LinearOrderedField K] {n : ℕ} (v : Fin n → K) :
    0 ≤ vecMaxAbs v := listMaxAbs_nonneg _

theorem le_vecMaxAbs {K : Type} [LinearOrderedField K] {n : ℕ} (v : Fin n → K) (i : Fin n) :
    |v i| ≤ vecMaxAbs v := by
  refine le_listMaxAbs ?_
  rw [List.mem_ofFn]
  exact ⟨i, rfl⟩

theorem vecMaxAbs_mul_left {K : Type} [LinearOrderedField K] {n : ℕ} (c : K) (v : Fin n → K) :
    vecMaxAbs (fun i => c * v i) = |c| * vecMaxAbs v := by
  rw [vecMaxAbs, vecMaxAbs, show (fun i => c * v i) = (fun a => c * a) ∘ v from rfl,
    ← List.map_ofFn]
  exact listMaxAbs_map_mul c _

theorem pidCalc_apply {K : Type} [LinearOrderedField K] {n : ℕ}
    (Mt : Matrix (Fin n) (Fin 4) K) (i : Fin n) (k : Fin 4) :
    pidCalc Mt i k = 100 * (Mt i k / colMaxAbs Mt k) := by
  simp [pidCalc, pidRows, Matrix.smul_apply, Matrix.transpose_apply, smul_eq_mul]

/-- C5.  The final PID table is `transpose Mt` with each axis row divided by
that axis's own maximum absolute value and multiplied by 100, and
consequently every one of its four axis columns has maximum absolute value
exactly 100, unless the axis is degenerate, in which case its values are
all zero (in the exact model of the division by the zero maximum; the IEEE
code would propagate non-finite values there). -/
theorem c5_pid_normalization {K : Type} [LinearOrderedField K] :
    (∀ (n : ℕ) (ct : CraftType) (frameX frameY propDirDecl : Fin n → K)
        (distMot cgX cgY : K),
      (quatosToolCalcMixer n ct frameX frameY propDirDecl distMot cgX cgY).PID =
        pidCalc (quatosToolCalcMixer n ct frameX frameY propDirDecl distMot cgX cgY).Mt) ∧
    ∀ (n : ℕ) (Mt : Matrix (Fin n) (Fin 4) K) (k : Fin 4),
      colMaxAbs (pidCalc Mt) k = 100 ∨ ∀ i, pidCalc Mt i k = 0 := by
  constructor
  · intro n ct frameX frameY propDirDecl distMot cgX cgY
    rfl
  · intro n Mt k
    have hm : colMaxAbs Mt k = vecMaxAbs fun i => Mt i k := rfl
    rcases (vecMaxAbs_nonneg fun i => Mt i k).eq_or_lt with h0 | hpos
    · refine Or.inr fun i => ?_
      rw [pidCalc_apply, hm, ← h0, div_zero, mul_zero]
    · refine Or.inl ?_
      have hentries : (fun i => pidCalc Mt i k) =
          fun i => (100 / colMaxAbs Mt k) * Mt i k := by
        funext i
        rw [pidCalc_apply]
        ring
      have hmne : colMaxAbs Mt k ≠ 0 := by rw [hm]; exact ne_of_gt hpos
      calc colMaxAbs (pidCalc Mt) k
        = vecMaxAbs fun i => pidCalc Mt i k := rfl
        _ = vecMaxAbs fun i => (100 / colMaxAbs Mt k) * Mt i k := by rw [hentries]
        _ = |100 / colMaxAbs Mt k| * vecMaxAbs fun i => Mt i k := vecMaxAbs_mul_left _ _
        _ = (100 / colMaxAbs Mt k) * colMaxAbs Mt k := by
            rw [abs_of_pos (div_pos (by norm_num) (hm ▸ hpos)), hm]
        _ = 100 := div_mul_cancel₀ _ hmne

/-- C7.  Before the four mixer systems are solved, every declared rotation
sign is multiplied by −1 and every motor coordinate is offset by the CG's x
and y components (the z component is never read by the mixer stage — it is
not even an argument); the ROLL system is the 3×n matrix with rows
`[motorX; 𝟙; −motorY]` and target `(0,0,1)`, the THROTTLE system the 4×n
matrix with rows `[motorX; motorY; propDir; 𝟙]` and target `(0,0,0,n)`,
each solved by pseudo-inverse times target. -/
theorem c7_mixer_systems {K : Type} [LinearOrderedField K] (n : ℕ) (ct : CraftType)
    (frameX frameY propDirDecl : Fin n → K) (distMot cgX cgY : K) :
    (∀ i, (quatosToolCalcMixer n ct frameX frameY propDirDecl distMot cgX cgY).propDir i =
      -propDirDecl i) ∧
    (∀ i, (quatosToolCalcMixer n ct frameX frameY propDirDecl distMot cgX cgY).motorX i =
      (if ct ≠ CraftType.custom then frameX i * distMot else frameX i) - cgX) ∧
    (∀ i, (quatosToolCalcMixer n ct frameX frameY propDirDecl distMot cgX cgY).motorY i =
      (if ct ≠ CraftType.custom then frameY i * distMot else frameY i) - cgY) ∧
    (quatosToolCalcMixer n ct frameX frameY propDirDecl distMot cgX cgY).ROLL =
      (pinvFRR (Matrix.of
        ![(quatosToolCalcMixer n ct frameX frameY propDirDecl distMot cgX cgY).motorX,
          fun _ => 1,
          fun i => -(quatosToolCalcMixer n ct frameX frameY propDirDecl distMot cgX cgY).motorY
            i])).mulVec ![0, 0, 1] ∧
    (quatosToolCalcMixer n ct frameX frameY propDirDecl distMot cgX cgY).THROT =
      (pinvFRR (Matrix.of
        ![(quatosToolCalcMixer n ct frameX frameY propDirDecl distMot cgX cgY).motorX,
          (quatosToolCalcMixer n ct frameX frameY propDirDecl distMot cgX cgY).motorY,
          (quatosToolCalcMixer n ct frameX frameY propDirDecl distMot cgX cgY).propDir,
          fun _ => 1])).mulVec ![0, 0, 0, (n : K)] := by
  refine ⟨fun i => ?_, fun i => rfl, fun i => rfl, rfl, rfl⟩
  show propDirDecl i * (-1) = -propDirDecl i
  ring

/-! ## Pseudo-inverse lemmas -/

/-- When every singular value clears the tolerance, the cut-off in
`pseudoInverseSVD` is inactive and the diagonal is the plain inverse. -/
theorem pseudoInverseSVD_of_above_tol {K : Type} [LinearOrderedField K] {r c k : ℕ}
    (eps : K) (U : Matrix (Fin r) (Fin k) K) (sv : Fin k → K) (V : Matrix (Fin c) (Fin k) K)
    (hsv : ∀ i, eps * ((max c r : ℕ) : K) * vecMaxAbs sv < |sv i|) :
    pseudoInverseSVD eps U sv V =
      V * Matrix.diagonal (fun i => (sv i)⁻¹) * U.transpose := by
  simp only [pseudoInverseSVD]
  have harg : (fun i => if eps * ((max c r : ℕ) : K) * vecMaxAbs sv < |sv i|
      then (sv i)⁻¹ else 0) = fun i => (sv i)⁻¹ := by
    funext i
    exact if_pos (hsv i)
  rw [harg]

/-- The source's SVD pseudo-inverse of a square factorisation
`A = U · diag σ · Vᵀ` with orthogonal `U`, `V` and every singular value
above the tolerance is a two-sided inverse of `A`, hence equals the exact
inverse. -/
theorem pseudoInverseSVD_inverts {K : Type} [LinearOrderedField K] {k : ℕ} (eps : K)
    (U V : Matrix (Fin k) (Fin k) K) (sv : Fin k → K) (heps : 0 ≤ eps)
    (hU : U.transpose * U = 1) (hV : V.transpose * V = 1)
    (hsv : ∀ i, eps * ((max k k : ℕ) : K) * vecMaxAbs sv < |sv i|) :
    (U * Matrix.diagonal sv * V.transpose) * pseudoInverseSVD eps U sv V = 1 ∧
    pseudoInverseSVD eps U sv V * (U * Matrix.diagonal sv * V.transpose) = 1 := by
  have htol : (0 : K) ≤ eps * ((max k k : ℕ) : K) * vecMaxAbs sv :=
    mul_nonneg (mul_nonneg heps (Nat.cast_nonneg _)) (vecMaxAbs_nonneg sv)
  have hne : ∀ i, sv i ≠ 0 := by
    intro i h0
    have hlt := hsv i
    rw [h0, abs_zero] at hlt
    exact absurd hlt (not_lt.mpr htol)
  have hUU : U * U.transpose = 1 := Matrix.mul_eq_one_comm.mp hU
  have hVV : V * V.transpose = 1 := Matrix.mul_eq_one_comm.mp hV
  have hprod : (fun i => sv i * (sv i)⁻¹) = fun _ => (1 : K) := by
    funext i
    exact mul_inv_cancel₀ (hne i)
  have hprod2 : (fun i => (sv i)⁻¹ * sv i) = fun _ => (1 : K) := by
    funext i
    exact inv_mul_cancel₀ (hne i)
  rw [pseudoInverseSVD_of_above_tol eps U sv V hsv]
  constructor
  · simp only [mul_assoc]
    rw [← mul_assoc V.transpose V, hV, one_mul, ← mul_assoc (Matrix.diagonal sv),
      Matrix.diagonal_mul_diagonal, hprod, Matrix.diagonal_one, one_mul, hUU]
  · simp only [mul_assoc]
    rw [← mul_assoc U.transpose U, hU, one_mul,
      ← mul_assoc (Matrix.diagonal fun i => (sv i)⁻¹),
      Matrix.diagonal_mul_diagonal, hprod2, Matrix.diagonal_one, one_mul, hVV]

/-- C6 (amended).  The pseudo-inverse is `V · diag σ⁺ · Uᵗ` with each
inverted singular value replaced by 0 whenever
`|σᵢ| ≤ ε·max(rows, cols)·max |σ|`, and for a full-rank square matrix
**all of whose singular values exceed that tolerance** the result is
exactly the inverse of `A = U · diag σ · Vᵀ`. -/
theorem c6_pinv_of_full_rank {K : Type} [LinearOrderedField K] {k : ℕ} (eps : K)
    (U V : Matrix (Fin k) (Fin k) K) (sv : Fin k → K) (heps : 0 ≤ eps)
    (hU : U.transpose * U = 1) (hV : V.transpose * V = 1)
    (hsv : ∀ i, eps * ((max k k : ℕ) : K) * vecMaxAbs sv < |sv i|) :
    pseudoInverseSVD eps U sv V = matInv (U * Matrix.diagonal sv * V.transpose) := by
  obtain ⟨h1, _⟩ := pseudoInverseSVD_inverts eps U V sv heps hU hV hsv
  exact (matInv_eq_of_mul_eq_one h1).symm

/-- Justification of the closed form used in the mixer embedding: on a thin
SVD factorisation `A = U · diag σ · Vᵀ` of a wide r×c matrix of full row
rank (orthogonal `U`, orthonormal columns of `V`) whose singular values all
clear the tolerance, the source's `pseudoInverse` equals `Aᵀ (A Aᵀ)⁻¹`. -/
theorem pseudoInverseSVD_eq_pinvFRR {K : Type} [LinearOrderedField K] {r c : ℕ} (eps : K)
    (U : Matrix (Fin r) (Fin r) K) (sv : Fin r → K) (V : Matrix (Fin c) (Fin r) K)
    (heps : 0 ≤ eps) (hU : U.transpose * U = 1) (hV : V.transpose * V = 1)
    (hsv : ∀ i, eps * ((max c r : ℕ) : K) * vecMaxAbs sv < |sv i|) :
    pseudoInverseSVD eps U sv V = pinvFRR (U * Matrix.diagonal sv * V.transpose) := by
  have htol : (0 : K) ≤ eps * ((max c r : ℕ) : K) * vecMaxAbs sv :=
    mul_nonneg (mul_nonneg heps (Nat.cast_nonneg _)) (vecMaxAbs_nonneg sv)
  have hne : ∀ i, sv i ≠ 0 := by
    intro i h0
    have hlt := hsv i
    rw [h0, abs_zero] at hlt
    exact absurd hlt (not_lt.mpr htol)
  have hUU : U * U.transpose = 1 := Matrix.mul_eq_one_comm.mp hU
  have hAt : (U * Matrix.diagonal sv * V.transpose).transpose =
      V * Matrix.diagonal sv * U.transpose := by
    rw [Matrix.transpose_mul, Matrix.transpose_mul, Matrix.transpose_transpose,
      Matrix.diagonal_transpose, Matrix.mul_assoc]
  have hAAt : U * Matrix.diagonal sv * V.transpose *
      (U * Matrix.diagonal sv * V.transpose).transpose =
      U * Matrix.diagonal (fun i => sv i * sv i) * U.transpose := by
    rw [hAt]
    simp only [Matrix.mul_assoc]
    rw [← Matrix.mul_assoc V.transpose V, hV, Matrix.one_mul,
      ← Matrix.mul_assoc (Matrix.diagonal sv) (Matrix.diagonal sv),
      Matrix.diagonal_mul_diagonal]
  have hsq : (fun i => (sv i * sv i) * (sv i * sv i)⁻¹) = fun _ => (1 : K) := by
    funext i
    exact mul_inv_cancel₀ (mul_ne_zero (hne i) (hne i))
  have hinv : matInv (U * Matrix.diagonal sv * V.transpose *
      (U * Matrix.diagonal sv * V.transpose).transpose) =
      U * Matrix.diagonal (fun i => (sv i * sv i)⁻¹) * U.transpose := by
    apply matInv_eq_of_mul_eq_one
    rw [hAAt]
    simp only [Matrix.mul_assoc]
    rw [← Matrix.mul_assoc U.transpose U, hU, Matrix.one_mul,
      ← Matrix.mul_assoc (Matrix.diagonal fun i => sv i * sv i),
      Matrix.diagonal_mul_diagonal, hsq, Matrix.diagonal_one, Matrix.one_mul, hUU]
  have hdrop : (fun i => sv i * (sv i * sv i)⁻¹) = fun i => (sv i)⁻¹ := by
    funext i
    rw [mul_inv, ← mul_assoc, mul_inv_cancel₀ (hne i), one_mul]
  rw [pseudoInverseSVD_of_above_tol eps U sv V hsv, pinvFRR, hinv, hAt]
  simp only [Matrix.mul_assoc]
  rw [← Matrix.mul_assoc U.transpose U, hU, Matrix.one_mul,
    ← Matrix.mul_assoc (Matrix.diagonal sv), Matrix.diagonal_mul_diagonal, hdrop]

/-- Evaluation of `vecMaxAbs` on a two-entry vector. -/
theorem vecMaxAbs_pair {K : Type} [LinearOrderedField K] (a b : K) :
    vecMaxAbs ![a, b] = max |a| (max |b| 0) := by
  rw [vecMaxAbs, show List.ofFn ![a, b] = [a, b] from by simp [List.ofFn_succ]]
  rfl

/-- Counterexample for C6.  With the default tolerance scale (the machine
epsilon of `double`), the full-rank 2×2 matrix `diag(1, 2⁻⁵³)` — whose thin
SVD is `U = V = I`, `σ = (1, 2⁻⁵³)` — has its second singular value below
the tolerance `ε·2·1 = 2⁻⁵¹`, so the source's pseudo-inverse replaces
`1/σ₂ = 2⁵³` by 0: the result `diag(1, 0)` is far from the exact inverse
`diag(1, 2⁵³)`, although the input is full-rank square. -/
theorem c6_counterexample :
    (1 : Matrix (Fin 2) (Fin 2) ℚ) * Matrix.diagonal ![1, 1 / 2 ^ 53] *
      (1 : Matrix (Fin 2) (Fin 2) ℚ).transpose = Matrix.diagonal ![1, 1 / 2 ^ 53] ∧
    (Matrix.diagonal ![(1 : ℚ), 1 / 2 ^ 53]).det ≠ 0 ∧
    pseudoInverseSVD machineEpsilon (1 : Matrix (Fin 2) (Fin 2) ℚ) ![1, 1 / 2 ^ 53]
      (1 : Matrix (Fin 2) (Fin 2) ℚ) 1 1 = 0 ∧
    matInv (Matrix.diagonal ![(1 : ℚ), 1 / 2 ^ 53]) 1 1 = 2 ^ 53 ∧
    pseudoInverseSVD machineEpsilon (1 : Matrix (Fin 2) (Fin 2) ℚ) ![1, 1 / 2 ^ 53]
      (1 : Matrix (Fin 2) (Fin 2) ℚ) ≠ matInv (Matrix.diagonal ![(1 : ℚ), 1 / 2 ^ 53]) := by
  have hmax : vecMaxAbs ![(1 : ℚ), 1 / 2 ^ 53] = 1 := by
    rw [vecMaxAbs_pair, abs_one, abs_of_nonneg (by norm_num : (0 : ℚ) ≤ 1 / 2 ^ 53),
      max_eq_left (by norm_num : (0 : ℚ) ≤ 1 / 2 ^ 53),
      max_eq_left (by norm_num : (1 / 2 ^ 53 : ℚ) ≤ 1)]
  have hdiagfm : Matrix.diagonal ![(1 : ℚ), 1 / 2 ^ 53] = !![1, 0; 0, 1 / 2 ^ 53] := by
    ext i j
    fin_cases i <;> fin_cases j <;> simp [Matrix.diagonal]
  have hcond : ¬(machineEpsilon * ((max 2 2 : ℕ) : ℚ) * vecMaxAbs ![(1 : ℚ), 1 / 2 ^ 53] <
      |(![(1 : ℚ), 1 / 2 ^ 53]) 1|) := by
    rw [hmax, show (![(1 : ℚ), 1 / 2 ^ 53]) 1 = 1 / 2 ^ 53 from rfl,
      abs_of_nonneg (by norm_num : (0 : ℚ) ≤ 1 / 2 ^ 53)]
    norm_num [machineEpsilon]
  have hpinv11 : pseudoInverseSVD machineEpsilon (1 : Matrix (Fin 2) (Fin 2) ℚ)
      ![1, 1 / 2 ^ 53] (1 : Matrix (Fin 2) (Fin 2) ℚ) 1 1 = 0 := by
    simp only [pseudoInverseSVD, Matrix.transpose_one, Matrix.one_mul, Matrix.mul_one]
    rw [Matrix.diagonal_apply_eq, if_neg hcond]
  have hinv11 : matInv (Matrix.diagonal ![(1 : ℚ), 1 / 2 ^ 53]) 1 1 = 2 ^ 53 := by
    rw [hdiagfm, matInv, Matrix.adjugate_fin_two]
    norm_num [Matrix.det_fin_two, Matrix.smul_apply]
  refine ⟨by rw [Matrix.transpose_one, Matrix.one_mul, Matrix.mul_one], ?_, hpinv11, hinv11, ?_⟩
  · rw [hdiagfm]
    norm_num [Matrix.det_fin_two]
  · intro h
    have hc := congrFun (congrFun h 1) 1
    rw [hpinv11, hinv11] at hc
    norm_num at hc

/-- Witness for C6's amended statement: a well-conditioned diagonal system
at the default tolerance. -/
theorem c6_pinv_of_full_rank_witness :
    pseudoInverseSVD machineEpsilon (1 : Matrix (Fin 2) (Fin 2) ℚ) ![3, 2]
      (1 : Matrix (Fin 2) (Fin 2) ℚ) =
    matInv ((1 : Matrix (Fin 2) (Fin 2) ℚ) * Matrix.diagonal ![3, 2] *
      (1 : Matrix (Fin 2) (Fin 2) ℚ).transpose) := by
  have hmax3 : vecMaxAbs ![(3 : ℚ), 2] = 3 := by
    rw [vecMaxAbs_pair, abs_of_nonneg (by norm_num : (0 : ℚ) ≤ 3),
      abs_of_nonneg (by norm_num : (0 : ℚ) ≤ 2),
      max_eq_left (by norm_num : (0 : ℚ) ≤ 2), max_eq_left (by norm_num : (2 : ℚ) ≤ 3)]
  refine c6_pinv_of_full_rank machineEpsilon 1 1 ![3, 2] (by norm_num [machineEpsilon])
    (by rw [Matrix.transpose_one, Matrix.one_mul])
    (by rw [Matrix.transpose_one, Matrix.one_mul]) ?_
  intro i
  fin_cases i
  · show machineEpsilon * ((max 2 2 : ℕ) : ℚ) * vecMaxAbs ![(3 : ℚ), 2] < |(3 : ℚ)|
    rw [hmax3, abs_of_nonneg (by norm_num : (0 : ℚ) ≤ 3)]
    norm_num [machineEpsilon]
  · show machineEpsilon * ((max 2 2 : ℕ) : ℚ) * vecMaxAbs ![(3 : ℚ), 2] < |(2 : ℚ)|
    rw [hmax3, abs_of_nonneg (by norm_num : (0 : ℚ) ≤ 2)]
    norm_num [machineEpsilon]

/-! ## Shape-decomposition lemmas -/

theorem foldl_sub_eq {α : Type} (f : α → Matrix (Fin 3) (Fin 3) ℚ) :
    ∀ (l : List α) (J : Matrix (Fin 3) (Fin 3) ℚ),
      l.foldl (fun acc t => acc - f t) J = J - (l.map f).sum := by
  intro l
  induction l with
  | nil => intro J; simp
  | cons a t ih =>
    intro J
    simp only [List.foldl_cons, List.map_cons, List.sum_cons, ih, sub_sub]

theorem foldl_fixed_acc {α β : Type} (l : List α) (b : β) :
    l.foldl (fun acc _ => acc) b = b := by
  induction l generalizing b with
  | nil => rfl
  | cons a t ih => simp only [List.foldl_cons, ih]

/-- C8 (amended).  An object is treated as a point mass exactly when SOME
extent is zero (the source tests `dimX != 0 && dimY != 0 && dimZ != 0`,
not "all extents zero"); when all three extents are non-zero it is an
extended cuboid decomposed into ⌊dimX·1000⌋ × ⌊dimY·1000⌋ × ⌊dimZ·1000⌋
millimetre sub-cells, each carrying `mass/cellCount`, whose point-mass
contributions relative to the CG are summed. -/
theorem c8_point_extended_selector :
    (∀ (cg : Fin 3 → ℚ) (J : Matrix (Fin 3) (Fin 3) ℚ) (o : ObjRec),
      (o.dimX = 0 ∨ o.dimY = 0 ∨ o.dimZ = 0) →
        objJStep cg J o = quatosToolJCalc J o.mass (o.x - cg 0) (o.y - cg 1) (o.z - cg 2)) ∧
    ∀ (cg : Fin 3 → ℚ) (J : Matrix (Fin 3) (Fin 3) ℚ) (o : ObjRec),
      o.dimX ≠ 0 → o.dimY ≠ 0 → o.dimZ ≠ 0 →
      objJStep cg J o = J -
        (List.map (fun (i : ℕ) =>
          (List.map (fun (j : ℕ) =>
            (List.map (fun (k : ℕ) =>
              (o.mass / ((mmCells o.dimX * mmCells o.dimY * mmCells o.dimZ : ℕ) : ℚ)) •
                (skewS (o.x - cg 0 - (o.dimX / 2 + (i : ℚ) / 1000) * shapeSign o.x)
                    (o.y - cg 1 - (o.dimY / 2 + (j : ℚ) / 1000) * shapeSign o.y)
                    (o.z - cg 2 - (o.dimZ / 2 + (k : ℚ) / 1000) * shapeSign o.z) *
                  skewS (o.x - cg 0 - (o.dimX / 2 + (i : ℚ) / 1000) * shapeSign o.x)
                    (o.y - cg 1 - (o.dimY / 2 + (j : ℚ) / 1000) * shapeSign o.y)
                    (o.z - cg 2 - (o.dimZ / 2 + (k : ℚ) / 1000) * shapeSign o.z)))
              (List.range (mmCells o.dimZ))).sum)
            (List.range (mmCells o.dimY))).sum)
          (List.range (mmCells o.dimX))).sum := by
  constructor
  · intro cg J o h
    simp only [objJStep]
    rw [if_neg (by tauto)]
  · intro cg J o hx hy hz
    simp only [objJStep]
    rw [if_pos ⟨hx, hy, hz⟩]
    simp only [quatosToolShapeCalc, quatosToolJCalc, foldl_sub_eq]

/-- Counterexample for C8.  The payload object with extents
(0.002, 0.002, 0) — not all zero — is treated as a POINT mass by the code
(the claim demands extended treatment whenever not all extents are zero),
and its point contribution differs from the extended-branch value. -/
theorem c8_counterexample :
    objJStep (fun _ => 0) 0 ⟨1/2, 1, 0, 0, 1/500, 1/500, 0⟩ =
      quatosToolJCalc 0 (1/2) 1 0 0 ∧
    quatosToolShapeCalc (fun _ => 0) 0 ⟨1/2, 1, 0, 0, 1/500, 1/500, 0⟩ = 0 ∧
    quatosToolJCalc 0 (1/2) 1 0 0 ≠ 0 ∧
    ¬((⟨1/2, 1, 0, 0, 1/500, 1/500, 0⟩ : ObjRec).dimX = 0 ∧
      (⟨1/2, 1, 0, 0, 1/500, 1/500, 0⟩ : ObjRec).dimY = 0 ∧
      (⟨1/2, 1, 0, 0, 1/500, 1/500, 0⟩ : ObjRec).dimZ = 0) := by
  refine ⟨?_, ?_, ?_, ?_⟩
  · simp only [objJStep]
    rw [if_neg (fun hc => hc.2.2 rfl)]
    ext a b
    fin_cases a <;> fin_cases b <;>
      norm_num [quatosToolJCalc, skewS, Matrix.mul_apply, Fin.sum_univ_three,
        Matrix.smul_apply, Matrix.sub_apply, Matrix.vecHead, Matrix.vecTail]
  · have hz : mmCells ((⟨1/2, 1, 0, 0, 1/500, 1/500, 0⟩ : ObjRec).dimZ) = 0 := by
      show mmCells 0 = 0
      simp [mmCells]
    simp only [quatosToolShapeCalc, hz, List.range_zero, List.foldl_nil]
    simp only [foldl_fixed_acc]
  · intro h
    have hc := congrFun (congrFun h 1) 1
    norm_num [quatosToolJCalc, skewS, Matrix.mul_apply, Fin.sum_univ_three,
      Matrix.smul_apply, Matrix.sub_apply, Matrix.vecHead, Matrix.vecTail] at hc
  · intro hc
    exact absurd (show (1/500 : ℚ) = 0 from hc.1) (by norm_num)

/-- Witness for C8's amended statement: the (0.002, 0.002, 0) object is
sent down the point-mass branch. -/
theorem c8_selector_witness :
    objJStep (fun _ => 0) 0 ⟨1/2, 1, 0, 0, 1/500, 1/500, 0⟩ =
      quatosToolJCalc 0 (1/2) (1 - 0) (0 - 0) (0 - 0) :=
  c8_point_extended_selector.1 (fun _ => 0) 0 ⟨1/2, 1, 0, 0, 1/500, 1/500, 0⟩
    (Or.inr (Or.inr rfl))

/-! ## Non-finiteness propagation lemmas -/

theorem nadd_none_left (x : NQ) : nadd none x = none := rfl

theorem nadd_none_right (x : NQ) : nadd x none = none := by cases x <;> rfl

theorem nmul_none_left (x : NQ) : nmul none x = none := rfl

theorem nmul_none_right (x : NQ) : nmul x none = none := by cases x <;> rfl

theorem nsub_none_left (x : NQ) : nsub none x = none := rfl

theorem nsub_none_right (x : NQ) : nsub x none = none := by cases x <;> rfl

theorem ndiv_none_left (x : NQ) : ndiv none x = none := rfl

theorem ndiv_zero_divisor (x : NQ) : ndiv x (some 0) = none := by
  cases x
  · rfl
  · simp [ndiv]

theorem foldl_pres_none {α : Type} (g : NQ → α → NQ) (hnone : ∀ a, g none a = none)
    (l : List α) : l.foldl g none = none := by
  induction l with
  | nil => rfl
  | cons b t ih => simp only [List.foldl_cons, hnone b, ih]

theorem foldl_eq_none_of_mem {α : Type} (g : NQ → α → NQ) (hnone : ∀ a, g none a = none)
    {l : List α} {a₀ : α} (hmem : a₀ ∈ l) (ha : ∀ s, g s a₀ = none) :
    ∀ init : NQ, l.foldl g init = none := by
  induction l with
  | nil => cases hmem
  | cons b t ih =>
    intro init
    simp only [List.foldl_cons]
    rcases List.mem_cons.mp hmem with heq | hmem2
    · subst heq
      rw [ha init]
      exact foldl_pres_none g hnone t
    · exact ih hmem2 (g init b)

theorem shapeJ00N_none (cg : Fin 3 → NQ) (o : ObjN) : shapeJ00N cg none o = none := by
  simp only [shapeJ00N]
  apply foldl_pres_none
  intro i
  apply foldl_pres_none
  intro j
  apply foldl_pres_none
  intro k
  exact nadd_none_left _

/-- C3 (amended).  No positivity validation of the total mass exists: the
CG division `offsetCG /= totalMass` is performed unconditionally, so a
configuration whose masses sum to zero produces a non-finite centre of
gravity (0/0, a NaN) in every component instead of a fatal error. -/
theorem c3_unchecked_division {n : ℕ} (c : FrameCfg n) (rt : NQ → NQ)
    (h : totalMassN c rt = 0) : ∀ j, cgN c rt j = none := by
  intro j
  simp only [cgN]
  rw [h]
  exact ndiv_zero_divisor _

/-- Counterexample for C3.  The all-zero-mass quad_plus configuration has
total mass 0, yet the engine still computes: each CG component comes out of
the unguarded division as a non-finite value (`none`), not as a fatal
configuration error. -/
theorem c3_counterexample :
    totalMassN cfgZeroMass rtZero = 0 ∧
    cgN cfgZeroMass rtZero 0 = none ∧
    cgN cfgZeroMass rtZero 1 = none ∧
    cgN cfgZeroMass rtZero 2 = none := by
  have hTM : totalMassN cfgZeroMass rtZero = 0 := by
    simp [totalMassN, kgObjsN, buildObjsN, motorObjN, escObjN, armObjN, cfgZeroMass, rtZero,
      List.finRange_succ, List.finRange_zero]
  exact ⟨hTM, c3_unchecked_division _ _ hTM 0, c3_unchecked_division _ _ hTM 1,
    c3_unchecked_division _ _ hTM 2⟩

/-- Witness for C3's amended statement at the zero-mass configuration. -/
theorem c3_unchecked_division_witness : cgN cfgZeroMass rtZero 0 = none := by
  refine c3_unchecked_division cfgZeroMass rtZero ?_ 0
  simp [totalMassN, kgObjsN, buildObjsN, motorObjN, escObjN, armObjN, cfgZeroMass, rtZero,
    List.finRange_succ, List.finRange_zero]

/-- C10.  In a custom-topology frame in which some motor's raw placement is
exactly (0, 0), the ESC placement divides by the zero norm of that motor
position, producing non-finite ESC coordinates; these propagate into both
horizontal components of the total-mass-weighted CG, into the inertia
accumulation (its roll/roll entry), and into the CG-adjusted motor
coordinates every mixer system is built from.  No error is signalled
anywhere on this path: the computation is total. -/
theorem c10_nan_propagation {n : ℕ} (c : FrameCfg n) (rt : NQ → NQ) (i₀ : Fin n)
    (hct : c.craftType = CraftType.custom) (hx : c.frameX i₀ = 0) (hy : c.frameY i₀ = 0)
    (hrt : rt (some 0) = some 0) :
    (escObjN c rt i₀).x = none ∧ (escObjN c rt i₀).y = none ∧
    cgN c rt 0 = none ∧ cgN c rt 1 = none ∧ j00N c rt = none ∧
    ∀ i, mixerMotorXN c rt i = none := by
  have hne : ¬(c.craftType ≠ CraftType.custom) := by rw [hct]; simp
  have hnorm : rt (some (c.frameX i₀ * c.frameX i₀ + c.frameY i₀ * c.frameY i₀)) = some 0 := by
    rw [hx, hy, show (0 * 0 + 0 * 0 : ℚ) = 0 by norm_num, hrt]
  have hescx : (escObjN c rt i₀).x = none := by
    simp only [escObjN, if_neg hne]
    rw [hnorm, ndiv_zero_divisor, nmul_none_left]
  have hescy : (escObjN c rt i₀).y = none := by
    simp only [escObjN, if_neg hne]
    rw [hnorm, ndiv_zero_divisor, nmul_none_left]
  have hdims : (escObjN c rt i₀).dimX = 0 := by
    simp only [escObjN, if_neg hne]
  have hmem : escObjN c rt i₀ ∈ buildObjsN c rt := by
    refine List.mem_append_left _ ?_
    refine List.mem_flatMap.mpr ⟨i₀, List.mem_finRange i₀, ?_⟩
    simp
  have hmemKg : ({ escObjN c rt i₀ with mass := (escObjN c rt i₀).mass / 1000 } : ObjN) ∈
      kgObjsN c rt := by
    simp only [kgObjsN]
    exact List.mem_map.mpr ⟨_, hmem, rfl⟩
  have hsum0 : cgSumN c rt 0 = none := by
    simp only [cgSumN]
    refine foldl_eq_none_of_mem (fun s o => nadd s (nmul (some o.mass) (posN o 0)))
      (fun o => nadd_none_left _) hmemKg (fun s => ?_) (some 0)
    beta_reduce
    rw [show posN { escObjN c rt i₀ with mass := (escObjN c rt i₀).mass / 1000 } 0 =
      (escObjN c rt i₀).x from rfl, hescx, nmul_none_right, nadd_none_right]
  have hsum1 : cgSumN c rt 1 = none := by
    simp only [cgSumN]
    refine foldl_eq_none_of_mem (fun s o => nadd s (nmul (some o.mass) (posN o 1)))
      (fun o => nadd_none_left _) hmemKg (fun s => ?_) (some 0)
    beta_reduce
    rw [show posN { escObjN c rt i₀ with mass := (escObjN c rt i₀).mass / 1000 } 1 =
      (escObjN c rt i₀).y from rfl, hescy, nmul_none_right, nadd_none_right]
  have hcg0 : cgN c rt 0 = none := by
    simp only [cgN]
    rw [hsum0, ndiv_none_left]
  have hcg1 : cgN c rt 1 = none := by
    simp only [cgN]
    rw [hsum1, ndiv_none_left]
  refine ⟨hescx, hescy, hcg0, hcg1, ?_, fun i => ?_⟩
  · simp only [j00N]
    refine foldl_eq_none_of_mem
      (fun acc o => if o.dimX ≠ 0 ∧ o.dimY ≠ 0 ∧ o.dimZ ≠ 0 then shapeJ00N (cgN c rt) acc o
        else nadd acc (j00TermN o.mass (nsub o.y (cgN c rt 1)) (nsub o.z (cgN c rt 2))))
      (fun o => ?_) hmemKg (fun s => ?_) (some 0)
    · beta_reduce
      by_cases hdims2 : o.dimX ≠ 0 ∧ o.dimY ≠ 0 ∧ o.dimZ ≠ 0
      · rw [if_pos hdims2]
        exact shapeJ00N_none _ _
      · rw [if_neg hdims2]
        exact nadd_none_left _
    · beta_reduce
      rw [if_neg (fun hcontra => hcontra.1 (show ({ escObjN c rt i₀ with
        mass := (escObjN c rt i₀).mass / 1000 } : ObjN).dimX = 0 from hdims))]
      rw [show ({ escObjN c rt i₀ with mass := (escObjN c rt i₀).mass / 1000 } : ObjN).y =
        (escObjN c rt i₀).y from rfl, hescy, nsub_none_left]
      simp only [j00TermN]
      rw [nmul_none_left, nadd_none_left, nmul_none_right, nadd_none_right]
  · simp only [mixerMotorXN]
    rw [hcg0, nsub_none_right]

/-- Witness for C10 at the concrete two-motor custom frame whose motor 0
sits at (0, 0). -/
theorem c10_nan_propagation_witness :
    (escObjN cfgCustomZero rtZero 0).x = none ∧ (escObjN cfgCustomZero rtZero 0).y = none ∧
    cgN cfgCustomZero rtZero 0 = none ∧ cgN cfgCustomZero rtZero 1 = none ∧
    j00N cfgCustomZero rtZero = none ∧
    ∀ i, mixerMotorXN cfgCustomZero rtZero i = none :=
  c10_nan_propagation cfgCustomZero rtZero 0 rfl rfl rfl rfl

/-! ## Port-order encoding lemmas -/

theorem testBit_foldl_or {α : Type} (f : α → ℕ) (l : List α) (init : ℕ) (m : ℕ) :
    (l.foldl (fun acc a => acc ||| f a) init).testBit m =
      (init.testBit m || l.any fun a => (f a).testBit m) := by
  induction l generalizing init with
  | nil => simp
  | cons b t ih =>
    simp only [List.foldl_cons, List.any_cons, ih, Nat.testBit_or, Bool.or_assoc]

theorem getD_lt_of_forall {ports : List ℕ} {b : ℕ} (hp : ∀ p ∈ ports, p < b) (hb : 0 < b)
    (i : ℕ) : ports.getD i 0 < b := by
  by_cases h : i < ports.length
  · rw [List.getD_eq_getElem ports 0 h]
    exact hp _ (List.getElem_mem h)
  · rw [List.getD_eq_default ports 0 (le_of_not_lt h)]
    exact hb

theorem word1_testBit (cid : ℕ) (ports : List ℕ) (m : ℕ) :
    (encodePortOrder1 cid ports).testBit m =
      (((List.range (min 6 ports.length)).any fun i =>
        (ports.getD i 0 <<< (8 + 4 * i)).testBit m) || cid.testBit m) := by
  simp only [encodePortOrder1]
  rw [Nat.testBit_or, testBit_foldl_or]
  simp

theorem decodeConfigId_word1 {cid : ℕ} (ports : List ℕ) (hcid : cid < 2 ^ 8) :
    decodeConfigId (word1Bits cid ports) = cid := by
  apply Nat.eq_of_testBit_eq
  intro j
  rw [decodeConfigId, word1Bits, Nat.testBit_mod_two_pow, Nat.testBit_mod_two_pow,
    word1_testBit]
  by_cases hj : j < 8
  · rw [decide_eq_true hj, decide_eq_true (show j < 32 by omega), Bool.true_and,
      Bool.true_and]
    have hany : ((List.range (min 6 ports.length)).any fun i =>
        (ports.getD i 0 <<< (8 + 4 * i)).testBit j) = false := by
      apply List.any_eq_false.mpr
      intro i _
      rw [Nat.testBit_shiftLeft, decide_eq_false (show ¬j ≥ 8 + 4 * i by omega),
        Bool.false_and]
      simp
    rw [hany, Bool.false_or]
  · rw [Nat.testBit_lt_two_pow
      (lt_of_lt_of_le hcid (Nat.pow_le_pow_right (by norm_num) (by omega)))]
    simp [hj]

theorem decodePortLow_word1 {cid : ℕ} {ports : List ℕ} (hcid : cid < 2 ^ 8)
    (hp : ∀ p ∈ ports, p < 2 ^ 4) {i : ℕ} (hi : i < min 6 ports.length) :
    decodePortLow (word1Bits cid ports) i = ports.getD i 0 := by
  have hport : ∀ k, ports.getD k 0 < 2 ^ 4 := getD_lt_of_forall hp (by norm_num)
  have hi6 : i < 6 := lt_of_lt_of_le hi (min_le_left _ _)
  apply Nat.eq_of_testBit_eq
  intro j
  rw [decodePortLow, word1Bits, Nat.testBit_mod_two_pow, Nat.testBit_shiftRight,
    Nat.testBit_mod_two_pow, word1_testBit]
  by_cases hj : j < 4
  · rw [decide_eq_true hj, decide_eq_true (show 8 + 4 * i + j < 32 by omega),
      Bool.true_and, Bool.true_and,
      Nat.testBit_lt_two_pow
        (lt_of_lt_of_le hcid (Nat.pow_le_pow_right (by norm_num) (by omega))),
      Bool.or_false]
    cases hbit : (ports.getD i 0).testBit j with
    | true =>
      apply List.any_eq_true.mpr
      refine ⟨i, List.mem_range.mpr hi, ?_⟩
      rw [Nat.testBit_shiftLeft, decide_eq_true (show 8 + 4 * i + j ≥ 8 + 4 * i by omega),
        Bool.true_and, show 8 + 4 * i + j - (8 + 4 * i) = j by omega, hbit]
    | false =>
      apply List.any_eq_false.mpr
      intro k _
      rw [Nat.testBit_shiftLeft]
      rcases lt_trichotomy k i with hlt | heq | hgt
      · rw [decide_eq_true (show 8 + 4 * i + j ≥ 8 + 4 * k by omega), Bool.true_and,
          Nat.testBit_lt_two_pow
            (lt_of_lt_of_le (hport k) (Nat.pow_le_pow_right (by norm_num) (by omega)))]
        simp
      · subst heq
        rw [decide_eq_true (show 8 + 4 * k + j ≥ 8 + 4 * k by omega), Bool.true_and,
          show 8 + 4 * k + j - (8 + 4 * k) = j by omega, hbit]
        simp
      · rw [decide_eq_false (show ¬(8 + 4 * i + j ≥ 8 + 4 * k) by omega), Bool.false_and]
        simp
  · rw [Nat.testBit_lt_two_pow
      (lt_of_lt_of_le (hport i) (Nat.pow_le_pow_right (by norm_num) (by omega)))]
    simp [hj]

theorem word2_testBit (ports : List ℕ) (m : ℕ) :
    (encodePortOrder2 ports).testBit m =
      ((List.range (min 8 (ports.length - 6))).any fun i =>
        (ports.getD (i + 6) 0 <<< (4 * i)).testBit m) := by
  simp only [encodePortOrder2]
  rw [testBit_foldl_or]
  simp

theorem decodePortHigh_word2 {ports : List ℕ} (hp : ∀ p ∈ ports, p < 2 ^ 4)
    (hlen : ports.length ≤ 14) {i : ℕ} (h6 : 6 ≤ i) (hi : i < ports.length) :
    decodePortHigh (word2Bits ports) i = ports.getD i 0 := by
  have hport : ∀ k, ports.getD k 0 < 2 ^ 4 := getD_lt_of_forall hp (by norm_num)
  have hk8 : i - 6 < min 8 (ports.length - 6) := by omega
  apply Nat.eq_of_testBit_eq
  intro j
  rw [decodePortHigh, word2Bits, Nat.testBit_mod_two_pow, Nat.testBit_shiftRight,
    Nat.testBit_mod_two_pow, word2_testBit]
  by_cases hj : j < 4
  · rw [decide_eq_true hj, decide_eq_true (show 4 * (i - 6) + j < 32 by omega),
      Bool.true_and, Bool.true_and]
    cases hbit : (ports.getD i 0).testBit j with
    | true =>
      apply List.any_eq_true.mpr
      refine ⟨i - 6, List.mem_range.mpr hk8, ?_⟩
      rw [Nat.testBit_shiftLeft,
        decide_eq_true (show 4 * (i - 6) + j ≥ 4 * (i - 6) by omega), Bool.true_and,
        show 4 * (i - 6) + j - 4 * (i - 6) = j by omega, show i - 6 + 6 = i by omega, hbit]
    | false =>
      apply List.any_eq_false.mpr
      intro k _
      rw [Nat.testBit_shiftLeft]
      rcases lt_trichotomy k (i - 6) with hlt | heq | hgt
      · rw [decide_eq_true (show 4 * (i - 6) + j ≥ 4 * k by omega), Bool.true_and,
          Nat.testBit_lt_two_pow
            (lt_of_lt_of_le (hport (k + 6)) (Nat.pow_le_pow_right (by norm_num) (by omega)))]
        simp
      · rw [heq, decide_eq_true (show 4 * (i - 6) + j ≥ 4 * (i - 6) by omega), Bool.true_and,
          show 4 * (i - 6) + j - 4 * (i - 6) = j by omega, show i - 6 + 6 = i by omega, hbit]
        simp
      · rw [decide_eq_false (show ¬(4 * (i - 6) + j ≥ 4 * k) by omega), Bool.false_and]
        simp
  · rw [Nat.testBit_lt_two_pow
      (lt_of_lt_of_le (hport i) (Nat.pow_le_pow_right (by norm_num) (by omega)))]
    simp [hj]

/-- C9 (amended).  For any motor count 1..14, any `configId` that fits its
8-bit field and any port assignment whose ports fit their 4-bit fields
(0–15), the port-order encoding followed by the documented
bit-reinterpretation decode recovers the `configId` and every
motor-to-port assignment exactly: motors 0–5 from the first word, motors
6–13 from the second. -/
theorem c9_roundtrip (configId : ℕ) (ports : List ℕ) (hcid : configId < 2 ^ 8)
    (hp : ∀ p ∈ ports, p < 2 ^ 4) (_hpos : 1 ≤ ports.length) (hlen : ports.length ≤ 14) :
    decodeConfigId (word1Bits configId ports) = configId ∧
    (∀ i < min 6 ports.length, decodePortLow (word1Bits configId ports) i = ports.getD i 0) ∧
    ∀ i, 6 ≤ i → i < ports.length → decodePortHigh (word2Bits ports) i = ports.getD i 0 := by
  refine ⟨decodeConfigId_word1 ports hcid, fun i hi => decodePortLow_word1 hcid hp hi,
    fun i h6 hi => decodePortHigh_word2 hp hlen h6 hi⟩

/-- Witness for C9's amended statement: an octo frame on ports 1–8 with
`configId` 30 (the octo_plus id) decodes back exactly. -/
theorem c9_roundtrip_witness :
    decodeConfigId (word1Bits 30 [1, 2, 3, 4, 5, 6, 7, 8]) = 30 ∧
    decodePortLow (word1Bits 30 [1, 2, 3, 4, 5, 6, 7, 8]) 2 = 3 ∧
    decodePortHigh (word2Bits [1, 2, 3, 4, 5, 6, 7, 8]) 7 = 8 := by
  have h := c9_roundtrip 30 [1, 2, 3, 4, 5, 6, 7, 8] (by norm_num) (by decide) (by decide)
    (by decide)
  exact ⟨h.1, h.2.1 2 (by decide), h.2.2 7 (by decide) (by decide)⟩

/-- Counterexample for C9.  Port 16 is a valid physical port (the data
model allows ports 1..16 and the output tables emit all 16 ports), but it
does not fit the 4-bit field of the port-order encoding: encoding a
single-motor craft on port 16 with `configId` 4 (the quad_plus id) yields
the word 4100 whose decoded motor-0 port is 0, not 16 — the round trip
fails on a valid motor count (1) and a valid port assignment. -/
theorem c9_counterexample :
    word1Bits 4 [16] = 4100 ∧ decodePortLow (word1Bits 4 [16]) 0 = 0 ∧
    decodePortLow (word1Bits 4 [16]) 0 ≠ 16 := by
  refine ⟨by decide, by decide, by decide⟩

/-! ## C4: the standard frame geometries

The geometry tables of `quatosToolCalc` are fixed numeric lists; the spec
describes them as `n` evenly spaced points on the unit circle.  The bridge
is a family of degree-level cosine facts: every entry equals
`cos/sin ((phase + i·360/n)·DEG_TO_RAD)` for the topology's phase. -/

theorem cosDeg_neg (x : ℝ) : Real.cos (-x * DEG_TO_RAD) = Real.cos (x * DEG_TO_RAD) := by
  rw [show -x * DEG_TO_RAD = -(x * DEG_TO_RAD) by ring, Real.cos_neg]

theorem cosDeg_add360 (x : ℝ) :
    Real.cos ((x + 360) * DEG_TO_RAD) = Real.cos (x * DEG_TO_RAD) := by
  rw [show (x + 360) * DEG_TO_RAD = x * DEG_TO_RAD + 2 * Real.pi by
    simp only [DEG_TO_RAD]; ring, Real.cos_add_two_pi]

theorem sinDeg_eq_cosDeg (x : ℝ) :
    Real.sin (x * DEG_TO_RAD) = Real.cos ((90 - x) * DEG_TO_RAD) := by
  rw [show (90 - x) * DEG_TO_RAD = Real.pi / 2 - x * DEG_TO_RAD by
    simp only [DEG_TO_RAD]; ring, Real.cos_pi_div_two_sub]

theorem cosDeg_zero : Real.cos ((0 : ℝ) * DEG_TO_RAD) = 1 := by
  rw [show (0 : ℝ) * DEG_TO_RAD = 0 by ring, Real.cos_zero]

theorem cosDeg_30 : Real.cos ((30 : ℝ) * DEG_TO_RAD) = Real.sqrt 3 / 2 := by
  rw [show (30 : ℝ) * DEG_TO_RAD = Real.pi / 6 by simp only [DEG_TO_RAD]; ring,
    Real.cos_pi_div_six]

theorem cosDeg_45 : Real.cos ((45 : ℝ) * DEG_TO_RAD) = Real.sqrt 2 / 2 := by
  rw [show (45 : ℝ) * DEG_TO_RAD = Real.pi / 4 by simp only [DEG_TO_RAD]; ring,
    Real.cos_pi_div_four]

theorem cosDeg_60 : Real.cos ((60 : ℝ) * DEG_TO_RAD) = 1 / 2 := by
  rw [show (60 : ℝ) * DEG_TO_RAD = Real.pi / 3 by simp only [DEG_TO_RAD]; ring,
    Real.cos_pi_div_three]

theorem cosDeg_90 : Real.cos ((90 : ℝ) * DEG_TO_RAD) = 0 := by
  rw [show (90 : ℝ) * DEG_TO_RAD = Real.pi / 2 by simp only [DEG_TO_RAD]; ring,
    Real.cos_pi_div_two]

theorem cosDeg_120 : Real.cos ((120 : ℝ) * DEG_TO_RAD) = -(1 / 2) := by
  rw [show (120 : ℝ) * DEG_TO_RAD = Real.pi - Real.pi / 3 by simp only [DEG_TO_RAD]; ring,
    Real.cos_pi_sub, Real.cos_pi_div_three]

theorem cosDeg_135 : Real.cos ((135 : ℝ) * DEG_TO_RAD) = -(Real.sqrt 2 / 2) := by
  rw [show (135 : ℝ) * DEG_TO_RAD = Real.pi - Real.pi / 4 by simp only [DEG_TO_RAD]; ring,
    Real.cos_pi_sub, Real.cos_pi_div_four]

theorem cosDeg_150 : Real.cos ((150 : ℝ) * DEG_TO_RAD) = -(Real.sqrt 3 / 2) := by
  rw [show (150 : ℝ) * DEG_TO_RAD = Real.pi - Real.pi / 6 by simp only [DEG_TO_RAD]; ring,
    Real.cos_pi_sub, Real.cos_pi_div_six]

theorem cosDeg_180 : Real.cos ((180 : ℝ) * DEG_TO_RAD) = -1 := by
  rw [show (180 : ℝ) * DEG_TO_RAD = Real.pi by simp only [DEG_TO_RAD]; ring, Real.cos_pi]

theorem cosDeg_210 : Real.cos ((210 : ℝ) * DEG_TO_RAD) = -(Real.sqrt 3 / 2) := by
  rw [show (210 : ℝ) * DEG_TO_RAD = Real.pi / 6 + Real.pi by simp only [DEG_TO_RAD]; ring,
    Real.cos_add_pi, Real.cos_pi_div_six]

theorem cosDeg_225 : Real.cos ((225 : ℝ) * DEG_TO_RAD) = -(Real.sqrt 2 / 2) := by
  rw [show (225 : ℝ) * DEG_TO_RAD = Real.pi / 4 + Real.pi by simp only [DEG_TO_RAD]; ring,
    Real.cos_add_pi, Real.cos_pi_div_four]

theorem cosDeg_240 : Real.cos ((240 : ℝ) * DEG_TO_RAD) = -(1 / 2) := by
  rw [show (240 : ℝ) * DEG_TO_RAD = Real.pi / 3 + Real.pi by simp only [DEG_TO_RAD]; ring,
    Real.cos_add_pi, Real.cos_pi_div_three]

theorem cosDeg_270 : Real.cos ((270 : ℝ) * DEG_TO_RAD) = 0 := by
  rw [show (270 : ℝ) * DEG_TO_RAD = Real.pi / 2 + Real.pi by simp only [DEG_TO_RAD]; ring,
    Real.cos_add_pi, Real.cos_pi_div_two, neg_zero]

theorem cosDeg_300 : Real.cos ((300 : ℝ) * DEG_TO_RAD) = 1 / 2 := by
  rw [show (300 : ℝ) = -60 + 360 by norm_num, cosDeg_add360, cosDeg_neg, cosDeg_60]

theorem cosDeg_315 : Real.cos ((315 : ℝ) * DEG_TO_RAD) = Real.sqrt 2 / 2 := by
  rw [show (315 : ℝ) = -45 + 360 by norm_num, cosDeg_add360, cosDeg_neg, cosDeg_45]

/-- quad_plus is the parametric circle at phase 0°, step 90°. -/
theorem evenlySpaced_quadPlus :
    evenlySpacedDeg 4 (frameXQuadPlus ℝ) (frameYQuadPlus ℝ) 0 := by
  intro i
  fin_cases i
  · constructor
    · show (1 : ℝ) = _
      rw [show ((0 : ℝ) + ((0 : ℕ) : ℝ) * (360 / ((4 : ℕ) : ℝ))) = (0 : ℝ) by norm_num,
        cosDeg_zero]
    · show (0 : ℝ) = _
      rw [show ((0 : ℝ) + ((0 : ℕ) : ℝ) * (360 / ((4 : ℕ) : ℝ))) = (0 : ℝ) by norm_num,
        sinDeg_eq_cosDeg, show (90 - (0 : ℝ)) = (90 : ℝ) by norm_num, cosDeg_90]
  · constructor
    · show (0 : ℝ) = _
      rw [show ((0 : ℝ) + ((1 : ℕ) : ℝ) * (360 / ((4 : ℕ) : ℝ))) = (90 : ℝ) by norm_num,
        cosDeg_90]
    · show (1 : ℝ) = _
      rw [show ((0 : ℝ) + ((1 : ℕ) : ℝ) * (360 / ((4 : ℕ) : ℝ))) = (90 : ℝ) by norm_num,
        sinDeg_eq_cosDeg, show (90 - (90 : ℝ)) = (0 : ℝ) by norm_num, cosDeg_zero]
  · constructor
    · show (-1 : ℝ) = _
      rw [show ((0 : ℝ) + ((2 : ℕ) : ℝ) * (360 / ((4 : ℕ) : ℝ))) = (180 : ℝ) by norm_num,
        cosDeg_180]
    · show (0 : ℝ) = _
      rw [show ((0 : ℝ) + ((2 : ℕ) : ℝ) * (360 / ((4 : ℕ) : ℝ))) = (180 : ℝ) by norm_num,
        sinDeg_eq_cosDeg, show (90 - (180 : ℝ)) = -(90 : ℝ) by norm_num, cosDeg_neg,
        cosDeg_90]
  · constructor
    · show (0 : ℝ) = _
      rw [show ((0 : ℝ) + ((3 : ℕ) : ℝ) * (360 / ((4 : ℕ) : ℝ))) = (270 : ℝ) by norm_num,
        cosDeg_270]
    · show (-1 : ℝ) = _
      rw [show ((0 : ℝ) + ((3 : ℕ) : ℝ) * (360 / ((4 : ℕ) : ℝ))) = (270 : ℝ) by norm_num,
        sinDeg_eq_cosDeg, show (90 - (270 : ℝ)) = -(180 : ℝ) by norm_num, cosDeg_neg,
        cosDeg_180]

/-- quad_x is the parametric circle at phase −45°, step 90°. -/
theorem evenlySpaced_quadX :
    evenlySpacedDeg 4 frameXQuadX frameYQuadX (-45) := by
  intro i
  fin_cases i
  · constructor
    · show Real.sqrt 2 / 2 = _
      rw [show ((-45 : ℝ) + ((0 : ℕ) : ℝ) * (360 / ((4 : ℕ) : ℝ))) = -(45 : ℝ) by norm_num,
        cosDeg_neg, cosDeg_45]
    · show -(Real.sqrt 2 / 2) = _
      rw [show ((-45 : ℝ) + ((0 : ℕ) : ℝ) * (360 / ((4 : ℕ) : ℝ))) = -(45 : ℝ) by norm_num,
        sinDeg_eq_cosDeg, show (90 - -(45 : ℝ)) = (135 : ℝ) by norm_num, cosDeg_135]
  · constructor
    · show Real.sqrt 2 / 2 = _
      rw [show ((-45 : ℝ) + ((1 : ℕ) : ℝ) * (360 / ((4 : ℕ) : ℝ))) = (45 : ℝ) by norm_num,
        cosDeg_45]
    · show Real.sqrt 2 / 2 = _
      rw [show ((-45 : ℝ) + ((1 : ℕ) : ℝ) * (360 / ((4 : ℕ) : ℝ))) = (45 : ℝ) by norm_num,
        sinDeg_eq_cosDeg, show (90 - (45 : ℝ)) = (45 : ℝ) by norm_num, cosDeg_45]
  · constructor
    · show -(Real.sqrt 2 / 2) = _
      rw [show ((-45 : ℝ) + ((2 : ℕ) : ℝ) * (360 / ((4 : ℕ) : ℝ))) = (135 : ℝ) by norm_num,
        cosDeg_135]
    · show Real.sqrt 2 / 2 = _
      rw [show ((-45 : ℝ) + ((2 : ℕ) : ℝ) * (360 / ((4 : ℕ) : ℝ))) = (135 : ℝ) by norm_num,
        sinDeg_eq_cosDeg, show (90 - (135 : ℝ)) = -(45 : ℝ) by norm_num, cosDeg_neg,
        cosDeg_45]
  · constructor
    · show -(Real.sqrt 2 / 2) = _
      rw [show ((-45 : ℝ) + ((3 : ℕ) : ℝ) * (360 / ((4 : ℕ) : ℝ))) = (225 : ℝ) by norm_num,
        cosDeg_225]
    · show -(Real.sqrt 2 / 2) = _
      rw [show ((-45 : ℝ) + ((3 : ℕ) : ℝ) * (360 / ((4 : ℕ) : ℝ))) = (225 : ℝ) by norm_num,
        sinDeg_eq_cosDeg, show (90 - (225 : ℝ)) = -(135 : ℝ) by norm_num, cosDeg_neg,
        cosDeg_135]

/-- hex_plus (its second, surviving assignment) is the parametric circle at
phase 0°, step 60°. -/
theorem evenlySpaced_hexPlus :
    evenlySpacedDeg 6 frameXHexPlus frameYHexPlus 0 := by
  intro i
  fin_cases i
  · constructor
    · show (1 : ℝ) = _
      rw [show ((0 : ℝ) + ((0 : ℕ) : ℝ) * (360 / ((6 : ℕ) : ℝ))) = (0 : ℝ) by norm_num,
        cosDeg_zero]
    · show (0 : ℝ) = _
      rw [show ((0 : ℝ) + ((0 : ℕ) : ℝ) * (360 / ((6 : ℕ) : ℝ))) = (0 : ℝ) by norm_num,
        sinDeg_eq_cosDeg, show (90 - (0 : ℝ)) = (90 : ℝ) by norm_num, cosDeg_90]
  · constructor
    · show (1 : ℝ) / 2 = _
      rw [show ((0 : ℝ) + ((1 : ℕ) : ℝ) * (360 / ((6 : ℕ) : ℝ))) = (60 : ℝ) by norm_num,
        cosDeg_60]
    · show Real.sqrt 3 / 2 = _
      rw [show ((0 : ℝ) + ((1 : ℕ) : ℝ) * (360 / ((6 : ℕ) : ℝ))) = (60 : ℝ) by norm_num,
        sinDeg_eq_cosDeg, show (90 - (60 : ℝ)) = (30 : ℝ) by norm_num, cosDeg_30]
  · constructor
    · show -((1 : ℝ) / 2) = _
      rw [show ((0 : ℝ) + ((2 : ℕ) : ℝ) * (360 / ((6 : ℕ) : ℝ))) = (120 : ℝ) by norm_num,
        cosDeg_120]
    · show Real.sqrt 3 / 2 = _
      rw [show ((0 : ℝ) + ((2 : ℕ) : ℝ) * (360 / ((6 : ℕ) : ℝ))) = (120 : ℝ) by norm_num,
        sinDeg_eq_cosDeg, show (90 - (120 : ℝ)) = -(30 : ℝ) by norm_num, cosDeg_neg,
        cosDeg_30]
  · constructor
    · show (-1 : ℝ) = _
      rw [show ((0 : ℝ) + ((3 : ℕ) : ℝ) * (360 / ((6 : ℕ) : ℝ))) = (180 : ℝ) by norm_num,
        cosDeg_180]
    · show (0 : ℝ) = _
      rw [show ((0 : ℝ) + ((3 : ℕ) : ℝ) * (360 / ((6 : ℕ) : ℝ))) = (180 : ℝ) by norm_num,
        sinDeg_eq_cosDeg, show (90 - (180 : ℝ)) = -(90 : ℝ) by norm_num, cosDeg_neg,
        cosDeg_90]
  · constructor
    · show -((1 : ℝ) / 2) = _
      rw [show ((0 : ℝ) + ((4 : ℕ) : ℝ) * (360 / ((6 : ℕ) : ℝ))) = (240 : ℝ) by norm_num,
        cosDeg_240]
    · show -(Real.sqrt 3 / 2) = _
      rw [show ((0 : ℝ) + ((4 : ℕ) : ℝ) * (360 / ((6 : ℕ) : ℝ))) = (240 : ℝ) by norm_num,
        sinDeg_eq_cosDeg, show (90 - (240 : ℝ)) = -(150 : ℝ) by norm_num, cosDeg_neg,
        cosDeg_150]
  · constructor
    · show (1 : ℝ) / 2 = _
      rw [show ((0 : ℝ) + ((5 : ℕ) : ℝ) * (360 / ((6 : ℕ) : ℝ))) = (300 : ℝ) by norm_num,
        cosDeg_300]
    · show -(Real.sqrt 3 / 2) = _
      rw [show ((0 : ℝ) + ((5 : ℕ) : ℝ) * (360 / ((6 : ℕ) : ℝ))) = (300 : ℝ) by norm_num,
        sinDeg_eq_cosDeg, show (90 - (300 : ℝ)) = -(210 : ℝ) by norm_num, cosDeg_neg,
        cosDeg_210]

/-- hex_x is the parametric circle at phase −30°, step 60°. -/
theorem evenlySpaced_hexX :
    evenlySpacedDeg 6 frameXHexX frameYHexX (-30) := by
  intro i
  fin_cases i
  · constructor
    · show Real.sqrt 3 / 2 = _
      rw [show ((-30 : ℝ) + ((0 : ℕ) : ℝ) * (360 / ((6 : ℕ) : ℝ))) = -(30 : ℝ) by norm_num,
        cosDeg_neg, cosDeg_30]
    · show -((1 : ℝ) / 2) = _
      rw [show ((-30 : ℝ) + ((0 : ℕ) : ℝ) * (360 / ((6 : ℕ) : ℝ))) = -(30 : ℝ) by norm_num,
        sinDeg_eq_cosDeg, show (90 - -(30 : ℝ)) = (120 : ℝ) by norm_num, cosDeg_120]
  · constructor
    · show Real.sqrt 3 / 2 = _
      rw [show ((-30 : ℝ) + ((1 : ℕ) : ℝ) * (360 / ((6 : ℕ) : ℝ))) = (30 : ℝ) by norm_num,
        cosDeg_30]
    · show (1 : ℝ) / 2 = _
      rw [show ((-30 : ℝ) + ((1 : ℕ) : ℝ) * (360 / ((6 : ℕ) : ℝ))) = (30 : ℝ) by norm_num,
        sinDeg_eq_cosDeg, show (90 - (30 : ℝ)) = (60 : ℝ) by norm_num, cosDeg_60]
  · constructor
    · show (0 : ℝ) = _
      rw [show ((-30 : ℝ) + ((2 : ℕ) : ℝ) * (360 / ((6 : ℕ) : ℝ))) = (90 : ℝ) by norm_num,
        cosDeg_90]
    · show (1 : ℝ) = _
      rw [show ((-30 : ℝ) + ((2 : ℕ) : ℝ) * (360 / ((6 : ℕ) : ℝ))) = (90 : ℝ) by norm_num,
        sinDeg_eq_cosDeg, show (90 - (90 : ℝ)) = (0 : ℝ) by norm_num, cosDeg_zero]
  · constructor
    · show -(Real.sqrt 3 / 2) = _
      rw [show ((-30 : ℝ) + ((3 : ℕ) : ℝ) * (360 / ((6 : ℕ) : ℝ))) = (150 : ℝ) by norm_num,
        cosDeg_150]
    · show (1 : ℝ) / 2 = _
      rw [show ((-30 : ℝ) + ((3 : ℕ) : ℝ) * (360 / ((6 : ℕ) : ℝ))) = (150 : ℝ) by norm_num,
        sinDeg_eq_cosDeg, show (90 - (150 : ℝ)) = -(60 : ℝ) by norm_num, cosDeg_neg,
        cosDeg_60]
  · constructor
    · show -(Real.sqrt 3 / 2) = _
      rw [show ((-30 : ℝ) + ((4 : ℕ) : ℝ) * (360 / ((6 : ℕ) : ℝ))) = (210 : ℝ) by norm_num,
        cosDeg_210]
    · show -((1 : ℝ) / 2) = _
      rw [show ((-30 : ℝ) + ((4 : ℕ) : ℝ) * (360 / ((6 : ℕ) : ℝ))) = (210 : ℝ) by norm_num,
        sinDeg_eq_cosDeg, show (90 - (210 : ℝ)) = -(120 : ℝ) by norm_num, cosDeg_neg,
        cosDeg_120]
  · constructor
    · show (0 : ℝ) = _
      rw [show ((-30 : ℝ) + ((5 : ℕ) : ℝ) * (360 / ((6 : ℕ) : ℝ))) = (270 : ℝ) by norm_num,
        cosDeg_270]
    · show (-1 : ℝ) = _
      rw [show ((-30 : ℝ) + ((5 : ℕ) : ℝ) * (360 / ((6 : ℕ) : ℝ))) = (270 : ℝ) by norm_num,
        sinDeg_eq_cosDeg, show (90 - (270 : ℝ)) = -(180 : ℝ) by norm_num, cosDeg_neg,
        cosDeg_180]

/-- octo_plus is the parametric circle at phase 0°, step 45° (the source
writes the non-axis entries directly as cosines of 45°, 135°, 225°, 315°). -/
theorem evenlySpaced_octoPlus :
    evenlySpacedDeg 8 frameXOctoPlus frameYOctoPlus 0 := by
  intro i
  fin_cases i
  · constructor
    · show (1 : ℝ) = _
      rw [show ((0 : ℝ) + ((0 : ℕ) : ℝ) * (360 / ((8 : ℕ) : ℝ))) = (0 : ℝ) by norm_num,
        cosDeg_zero]
    · show (0 : ℝ) = _
      rw [show ((0 : ℝ) + ((0 : ℕ) : ℝ) * (360 / ((8 : ℕ) : ℝ))) = (0 : ℝ) by norm_num,
        sinDeg_eq_cosDeg, show (90 - (0 : ℝ)) = (90 : ℝ) by norm_num, cosDeg_90]
  · constructor
    · show Real.cos (45 * DEG_TO_RAD) = _
      rw [show ((0 : ℝ) + ((1 : ℕ) : ℝ) * (360 / ((8 : ℕ) : ℝ))) = (45 : ℝ) by norm_num]
    · show Real.cos (315 * DEG_TO_RAD) = _
      rw [show ((0 : ℝ) + ((1 : ℕ) : ℝ) * (360 / ((8 : ℕ) : ℝ))) = (45 : ℝ) by norm_num,
        sinDeg_eq_cosDeg, show (90 - (45 : ℝ)) = (45 : ℝ) by norm_num, cosDeg_45,
        cosDeg_315]
  · constructor
    · show (0 : ℝ) = _
      rw [show ((0 : ℝ) + ((2 : ℕ) : ℝ) * (360 / ((8 : ℕ) : ℝ))) = (90 : ℝ) by norm_num,
        cosDeg_90]
    · show (1 : ℝ) = _
      rw [show ((0 : ℝ) + ((2 : ℕ) : ℝ) * (360 / ((8 : ℕ) : ℝ))) = (90 : ℝ) by norm_num,
        sinDeg_eq_cosDeg, show (90 - (90 : ℝ)) = (0 : ℝ) by norm_num, cosDeg_zero]
  · constructor
    · show Real.cos (135 * DEG_TO_RAD) = _
      rw [show ((0 : ℝ) + ((3 : ℕ) : ℝ) * (360 / ((8 : ℕ) : ℝ))) = (135 : ℝ) by norm_num]
    · show Real.cos (45 * DEG_TO_RAD) = _
      rw [show ((0 : ℝ) + ((3 : ℕ) : ℝ) * (360 / ((8 : ℕ) : ℝ))) = (135 : ℝ) by norm_num,
        sinDeg_eq_cosDeg, show (90 - (135 : ℝ)) = -(45 : ℝ) by norm_num, cosDeg_neg]
  · constructor
    · show (-1 : ℝ) = _
      rw [show ((0 : ℝ) + ((4 : ℕ) : ℝ) * (360 / ((8 : ℕ) : ℝ))) = (180 : ℝ) by norm_num,
        cosDeg_180]
    · show (0 : ℝ) = _
      rw [show ((0 : ℝ) + ((4 : ℕ) : ℝ) * (360 / ((8 : ℕ) : ℝ))) = (180 : ℝ) by norm_num,
        sinDeg_eq_cosDeg, show (90 - (180 : ℝ)) = -(90 : ℝ) by norm_num, cosDeg_neg,
        cosDeg_90]
  · constructor
    · show Real.cos (225 * DEG_TO_RAD) = _
      rw [show ((0 : ℝ) + ((5 : ℕ) : ℝ) * (360 / ((8 : ℕ) : ℝ))) = (225 : ℝ) by norm_num]
    · show Real.cos (135 * DEG_TO_RAD) = _
      rw [show ((0 : ℝ) + ((5 : ℕ) : ℝ) * (360 / ((8 : ℕ) : ℝ))) = (225 : ℝ) by norm_num,
        sinDeg_eq_cosDeg, show (90 - (225 : ℝ)) = -(135 : ℝ) by norm_num, cosDeg_neg]
  · constructor
    · show (0 : ℝ) = _
      rw [show ((0 : ℝ) + ((6 : ℕ) : ℝ) * (360 / ((8 : ℕ) : ℝ))) = (270 : ℝ) by norm_num,
        cosDeg_270]
    · show (-1 : ℝ) = _
      rw [show ((0 : ℝ) + ((6 : ℕ) : ℝ) * (360 / ((8 : ℕ) : ℝ))) = (270 : ℝ) by norm_num,
        sinDeg_eq_cosDeg, show (90 - (270 : ℝ)) = -(180 : ℝ) by norm_num, cosDeg_neg,
        cosDeg_180]
  · constructor
    · show Real.cos (315 * DEG_TO_RAD) = _
      rw [show ((0 : ℝ) + ((7 : ℕ) : ℝ) * (360 / ((8 : ℕ) : ℝ))) = (315 : ℝ) by norm_num]
    · show Real.cos (225 * DEG_TO_RAD) = _
      rw [show ((0 : ℝ) + ((7 : ℕ) : ℝ) * (360 / ((8 : ℕ) : ℝ))) = (315 : ℝ) by norm_num,
        sinDeg_eq_cosDeg, show (90 - (315 : ℝ)) = -(225 : ℝ) by norm_num, cosDeg_neg]

/-- octo_x is the parametric circle at phase −22.5°, step 45° (the source
writes every entry as a cosine of an odd multiple of 22.5°). -/
theorem evenlySpaced_octoX :
    evenlySpacedDeg 8 frameXOctoX frameYOctoX (-22.5) := by
  intro i
  fin_cases i
  · constructor
    · show Real.cos (337.5 * DEG_TO_RAD) = _
      rw [show ((-22.5 : ℝ) + ((0 : ℕ) : ℝ) * (360 / ((8 : ℕ) : ℝ))) = -(22.5 : ℝ) by
        norm_num, show (337.5 : ℝ) = -22.5 + 360 by norm_num, cosDeg_add360]
    · show Real.cos (247.5 * DEG_TO_RAD) = _
      rw [show ((-22.5 : ℝ) + ((0 : ℕ) : ℝ) * (360 / ((8 : ℕ) : ℝ))) = -(22.5 : ℝ) by
        norm_num, sinDeg_eq_cosDeg, show (90 - -(22.5 : ℝ)) = (112.5 : ℝ) by norm_num,
        show (247.5 : ℝ) = -112.5 + 360 by norm_num, cosDeg_add360, cosDeg_neg]
  · constructor
    · show Real.cos (22.5 * DEG_TO_RAD) = _
      rw [show ((-22.5 : ℝ) + ((1 : ℕ) : ℝ) * (360 / ((8 : ℕ) : ℝ))) = (22.5 : ℝ) by
        norm_num]
    · show Real.cos (292.5 * DEG_TO_RAD) = _
      rw [show ((-22.5 : ℝ) + ((1 : ℕ) : ℝ) * (360 / ((8 : ℕ) : ℝ))) = (22.5 : ℝ) by
        norm_num, sinDeg_eq_cosDeg, show (90 - (22.5 : ℝ)) = (67.5 : ℝ) by norm_num,
        show (292.5 : ℝ) = -67.5 + 360 by norm_num, cosDeg_add360, cosDeg_neg]
  · constructor
    · show Real.cos (67.5 * DEG_TO_RAD) = _
      rw [show ((-22.5 : ℝ) + ((2 : ℕ) : ℝ) * (360 / ((8 : ℕ) : ℝ))) = (67.5 : ℝ) by
        norm_num]
    · show Real.cos (337.5 * DEG_TO_RAD) = _
      rw [show ((-22.5 : ℝ) + ((2 : ℕ) : ℝ) * (360 / ((8 : ℕ) : ℝ))) = (67.5 : ℝ) by
        norm_num, sinDeg_eq_cosDeg, show (90 - (67.5 : ℝ)) = (22.5 : ℝ) by norm_num,
        show (337.5 : ℝ) = -22.5 + 360 by norm_num, cosDeg_add360, cosDeg_neg]
  · constructor
    · show Real.cos (112.5 * DEG_TO_RAD) = _
      rw [show ((-22.5 : ℝ) + ((3 : ℕ) : ℝ) * (360 / ((8 : ℕ) : ℝ))) = (112.5 : ℝ) by
        norm_num]
    · show Real.cos (22.5 * DEG_TO_RAD) = _
      rw [show ((-22.5 : ℝ) + ((3 : ℕ) : ℝ) * (360 / ((8 : ℕ) : ℝ))) = (112.5 : ℝ) by
        norm_num, sinDeg_eq_cosDeg, show (90 - (112.5 : ℝ)) = -(22.5 : ℝ) by norm_num,
        cosDeg_neg]
  · constructor
    · show Real.cos (157.5 * DEG_TO_RAD) = _
      rw [show ((-22.5 : ℝ) + ((4 : ℕ) : ℝ) * (360 / ((8 : ℕ) : ℝ))) = (157.5 : ℝ) by
        norm_num]
    · show Real.cos (67.5 * DEG_TO_RAD) = _
      rw [show ((-22.5 : ℝ) + ((4 : ℕ) : ℝ) * (360 / ((8 : ℕ) : ℝ))) = (157.5 : ℝ) by
        norm_num, sinDeg_eq_cosDeg, show (90 - (157.5 : ℝ)) = -(67.5 : ℝ) by norm_num,
        cosDeg_neg]
  · constructor
    · show Real.cos (202.5 * DEG_TO_RAD) = _
      rw [show ((-22.5 : ℝ) + ((5 : ℕ) : ℝ) * (360 / ((8 : ℕ) : ℝ))) = (202.5 : ℝ) by
        norm_num]
    · show Real.cos (112.5 * DEG_TO_RAD) = _
      rw [show ((-22.5 : ℝ) + ((5 : ℕ) : ℝ) * (360 / ((8 : ℕ) : ℝ))) = (202.5 : ℝ) by
        norm_num, sinDeg_eq_cosDeg, show (90 - (202.5 : ℝ)) = -(112.5 : ℝ) by norm_num,
        cosDeg_neg]
  · constructor
    · show Real.cos (247.5 * DEG_TO_RAD) = _
      rw [show ((-22.5 : ℝ) + ((6 : ℕ) : ℝ) * (360 / ((8 : ℕ) : ℝ))) = (247.5 : ℝ) by
        norm_num]
    · show Real.cos (157.5 * DEG_TO_RAD) = _
      rw [show ((-22.5 : ℝ) + ((6 : ℕ) : ℝ) * (360 / ((8 : ℕ) : ℝ))) = (247.5 : ℝ) by
        norm_num, sinDeg_eq_cosDeg, show (90 - (247.5 : ℝ)) = -(157.5 : ℝ) by norm_num,
        cosDeg_neg]
  · constructor
    · show Real.cos (292.5 * DEG_TO_RAD) = _
      rw [show ((-22.5 : ℝ) + ((7 : ℕ) : ℝ) * (360 / ((8 : ℕ) : ℝ))) = (292.5 : ℝ) by
        norm_num]
    · show Real.cos (202.5 * DEG_TO_RAD) = _
      rw [show ((-22.5 : ℝ) + ((7 : ℕ) : ℝ) * (360 / ((8 : ℕ) : ℝ))) = (292.5 : ℝ) by
        norm_num, sinDeg_eq_cosDeg, show (90 - (292.5 : ℝ)) = -(202.5 : ℝ) by norm_num,
        cosDeg_neg]

/-- A geometry in the parametric circle form automatically has unit norm at
every motor index. -/
theorem evenlySpacedDeg_unit_norm (n : ℕ) (X Y : Fin n → ℝ) (phase : ℝ)
    (h : evenlySpacedDeg n X Y phase) : ∀ i, X i ^ 2 + Y i ^ 2 = 1 := by
  intro i
  rw [(h i).1, (h i).2]
  exact Real.cos_sq_add_sin_sq _

/-- C4.  Every standard topology's resolved geometry is its motor count's
worth of points, evenly spaced by 360°/n around the unit circle starting at
the topology's phase (quad_plus 0°, quad_x −45°, hex_plus 0°, hex_x −30°,
octo_plus 0°, octo_x −22.5°), each of norm 1; quad_plus in particular is
exactly (1,0), (0,1), (−1,0), (0,−1) in motor-index order. -/
theorem c4_standard_geometry :
    (stdMotorCount CraftType.quadPlus = 4 ∧ stdMotorCount CraftType.quadX = 4 ∧
      stdMotorCount CraftType.hexPlus = 6 ∧ stdMotorCount CraftType.hexX = 6 ∧
      stdMotorCount CraftType.octoPlus = 8 ∧ stdMotorCount CraftType.octoX = 8) ∧
    (evenlySpacedDeg 4 (frameXQuadPlus ℝ) (frameYQuadPlus ℝ) 0 ∧
      evenlySpacedDeg 4 frameXQuadX frameYQuadX (-45) ∧
      evenlySpacedDeg 6 frameXHexPlus frameYHexPlus 0 ∧
      evenlySpacedDeg 6 frameXHexX frameYHexX (-30) ∧
      evenlySpacedDeg 8 frameXOctoPlus frameYOctoPlus 0 ∧
      evenlySpacedDeg 8 frameXOctoX frameYOctoX (-22.5)) ∧
    ((∀ i, frameXQuadPlus ℝ i ^ 2 + frameYQuadPlus ℝ i ^ 2 = 1) ∧
      (∀ i, frameXQuadX i ^ 2 + frameYQuadX i ^ 2 = 1) ∧
      (∀ i, frameXHexPlus i ^ 2 + frameYHexPlus i ^ 2 = 1) ∧
      (∀ i, frameXHexX i ^ 2 + frameYHexX i ^ 2 = 1) ∧
      (∀ i, frameXOctoPlus i ^ 2 + frameYOctoPlus i ^ 2 = 1) ∧
      (∀ i, frameXOctoX i ^ 2 + frameYOctoX i ^ 2 = 1)) ∧
    (frameXQuadPlus ℝ = ![1, 0, -1, 0] ∧ frameYQuadPlus ℝ = ![0, 1, 0, -1]) :=
  ⟨⟨rfl, rfl, rfl, rfl, rfl, rfl⟩,
    ⟨evenlySpaced_quadPlus, evenlySpaced_quadX, evenlySpaced_hexPlus,
      evenlySpaced_hexX, evenlySpaced_octoPlus, evenlySpaced_octoX⟩,
    ⟨evenlySpacedDeg_unit_norm _ _ _ _ evenlySpaced_quadPlus,
      evenlySpacedDeg_unit_norm _ _ _ _ evenlySpaced_quadX,
      evenlySpacedDeg_unit_norm _ _ _ _ evenlySpaced_hexPlus,
      evenlySpacedDeg_unit_norm _ _ _ _ evenlySpaced_hexX,
      evenlySpacedDeg_unit_norm _ _ _ _ evenlySpaced_octoPlus,
      evenlySpacedDeg_unit_norm _ _ _ _ evenlySpaced_octoX⟩,
    ⟨rfl, rfl⟩⟩
